import Mathlib

/-!
# codesearch: regular-expression search with per-file line snippets

A shallow embedding of `server/codesearch/codesearch.go`.

Conventions of the embedding

* A Go `[]byte` is a `List UInt8`; its capacity is taken equal to its length, so
  a slice expression `b[lo:hi]` is in range exactly when `0 ≤ lo ≤ hi ≤ len(b)`.
  An out-of-range slice expression is a run-time panic, modelled by `none`.
* A Go `int` is an `Int` (no value computed here exceeds the length of a slice
  plus one, so it never wraps); the conversion `int32(x)` is two's-complement
  truncation to 32 bits.
* A Go `string` is the sequence of its bytes when it is file content, and a Lean
  `String` when it is a pattern, a file name or an error message.
* The collaborators (the regexp compiler, the trigram index, the cross-reference
  service) are functions supplied by an environment; every call made to one of
  them is recorded in a call log returned next to the result.
-/

namespace codesearch

/-! ## Byte-slice primitives of the Go standard library -/

/-- The newline byte `'\n'`. -/
def NL : UInt8 := 10

/-- The slice expression `b[lo:hi]`; `none` when the bounds are out of range. -/
def slice (b : List UInt8) (lo hi : Int) : Option (List UInt8) :=
  if 0 ≤ lo ∧ lo ≤ hi ∧ hi ≤ (b.length : Int) then
    some ((b.take hi.toNat).drop lo.toNat)
  else none

/-- Go `bytes.IndexByte(b, c)`: index of the first `c` in `b`, or `-1`. -/
def IndexByte : List UInt8 → UInt8 → Int
  | [], _ => -1
  | x :: xs, c =>
    if x = c then 0
    else
      let r := IndexByte xs c
      if r < 0 then -1 else r + 1

/-- Go `bytes.LastIndex(s, sep)` for a one-byte separator `sep = []byte{c}` (the
only use in the source): index of the last `c` in `s`, or `-1`. -/
def LastIndex : List UInt8 → UInt8 → Int
  | [], _ => -1
  | x :: xs, c =>
    let r := LastIndex xs c
    if 0 ≤ r then r + 1
    else if x = c then 0 else -1

/-- Go `int32(x)` for an `int` x: truncation to 32 bits, two's complement. -/
def int32 (x : Int) : Int := (x + 2 ^ 31) % 2 ^ 32 - 2 ^ 31

/-! ## countNL (source lines 75-86) -/

/-- The `for` loop of `countNL`, with the loop variables `b` and `n`. -/
def countNL.loop (b : List UInt8) (n : Int) : Int :=
  let i := IndexByte b NL
  if _h : i < 0 then n
  else countNL.loop (b.drop (i + 1).toNat) (n + 1)
termination_by b.length
decreasing_by
  have h1 : ∀ l : List UInt8, IndexByte l NL < (l.length : Int) := by
    intro l
    induction l with
    | nil => simp [IndexByte]
    | cons x xs ih =>
      simp only [IndexByte, List.length_cons]
      split
      · omega
      · split <;> push_cast <;> omega
  have h2 := h1 b
  simp only [List.length_drop]
  omega

/-- Go `countNL(b)`: `n := 0`, then the loop. The slice `b[i+1:]` is always in
range because `0 ≤ i < len(b)` there. -/
def countNL (b : List UInt8) : Int := countNL.loop b 0

/-! ## Message types

The Go declarations of these types are generated code that is not part of the
source tree; their fields are the ones the source reads and writes. -/

/-- Modelled from the spec: the message `Regexp` of a request (its Go declaration
is generated code absent from the source tree): the raw expression and the
case-sensitivity flag. -/
structure Regexp where
  Expr : String
  CaseSensitive : Bool
  deriving DecidableEq, Repr

/-- Modelled from the spec: the message `CodeSearchRequest` (declaration absent
from the source tree); `Regexp` is a pointer, `none` is Go `nil`. -/
structure CodeSearchRequest where
  Regexp : Option Regexp
  deriving DecidableEq, Repr

/-- Modelled from the spec: the message `Snippet` (declaration absent from the
source tree): the text of the snippet and its `int32` line number. -/
structure Snippet where
  Content : List UInt8
  LineNumber : Int
  deriving DecidableEq, Repr

/-- Modelled from the spec: the message `Match` (declaration absent from the
source tree): a file name and its snippets. -/
structure Match where
  Filename : String
  Snippet : List Snippet
  deriving DecidableEq, Repr

/-- Modelled from the spec: the message `CodeSearchReply` (declaration absent
from the source tree): the matches, in order. -/
structure CodeSearchReply where
  Match : List Match
  deriving DecidableEq, Repr

/-! ## Collaborators -/

/-- The compiled `*regexp.Regexp` of the codesearch library, as far as the source
uses it: the field `Syntax` and the method `Match(b, beginText, endText)`, which
reports an end offset relative to `b`, or a negative number. -/
structure CompiledRegexp (Syn : Type) where
  Syntax : Syn
  Match : List UInt8 → Bool → Bool → Int

/-- The external functions the package calls. -/
structure Env (Syn Query : Type) where
  /-- the library function `regexp.Compile(expr)` -/
  regexpCompile : String → Except String (CompiledRegexp Syn)
  /-- the library function `index.RegexpQuery(re.Syntax)` -/
  RegexpQuery : Syn → Query
  /-- the method `ix.PostingQuery(q)` of the index -/
  PostingQuery : Query → List Nat
  /-- the method `ix.Name(fileid)` of the index -/
  Name : Nat → String
  /-- the method `xs.Decorations(ctx, req)` of the cross-reference service, for a
  file ticket: the source text of the reply, or the error -/
  Decorations : String → Except String (List UInt8)

/-- One call to a collaborator. -/
inductive Call (Syn Query : Type) where
  | regexpCompile (expr : String)
  | RegexpQuery (syn : Syn)
  | PostingQuery (q : Query)
  | Name (fileid : Nat)
  | Decorations (ticket : String)
  deriving DecidableEq, Repr

/-- A call to the index (`PostingQuery`, `Name`) or to the content service. -/
def Call.isIndexOrContent {Syn Query : Type} : Call Syn Query → Bool
  | .PostingQuery _ => true
  | .Name _ => true
  | .Decorations _ => true
  | _ => false

/-! ## Regexp.Compile (source lines 48-57) -/

/-- Go `(r *Regexp).Compile()`: the call log and the result. -/
def Regexp.Compile {Syn Query : Type} (env : Env Syn Query) (r : Regexp) :
    List (Call Syn Query) × Except String (CompiledRegexp Syn) :=
  if r.Expr = "" then
    ([], .error "Empty search regexp provided.")
  else
    let expr := r.Expr
    let expr := if r.CaseSensitive then "(?i)" ++ expr else expr
    ([.regexpCompile expr], env.regexpCompile expr)

/-! ## GetSnippets (source lines 88-117) -/

/-- The values of the locals of one completed loop iteration of `GetSnippets`. -/
structure Iter where
  chunkStart : Int
  mIdx : Int
  lineStart : Int
  lineEnd : Int
  lineNo : Int
  snip : Snippet
  deriving DecidableEq, Repr

/-- How one run of the loop body (lines 98-114) ends. -/
inductive Step where
  /-- the `break` of line 100 -/
  | brk
  /-- a slice expression out of range -/
  | oob
  /-- the end of the body, with the values of the iteration -/
  | cont (it : Iter)
  deriving DecidableEq, Repr

/-- The loop body of `GetSnippets`, lines 98-114, from `chunkStart` and `lineNo`. -/
def GetSnippets.body {Syn : Type} (data : List UInt8) (re : CompiledRegexp Syn)
    (chunkStart lineNo : Int) : Step :=
  match slice data chunkStart data.length with
  | none => .oob
  | some window =>
    let mIdx := re.Match window true true + chunkStart
    if mIdx < chunkStart then .brk
    else
      match slice data chunkStart mIdx with
      | none => .oob
      | some upToMatch =>
        let lineStart := LastIndex upToMatch NL + 1 + chunkStart
        let lineEnd := if mIdx > (data.length : Int) then (data.length : Int) else mIdx
        match slice data chunkStart lineStart with
        | none => .oob
        | some skipped =>
          let lineNo := lineNo + countNL skipped
          match slice data lineStart lineEnd with
          | none => .oob
          | some line =>
            .cont ⟨chunkStart, mIdx, lineStart, lineEnd, lineNo, ⟨line, int32 lineNo⟩⟩

/-- The `for` loop of `GetSnippets`, lines 94-115, from the loop variables `s`,
`chunkStart` and `lineNo`; `none` when a slice expression panics. -/
def GetSnippets.loop {Syn : Type} (data : List UInt8) (re : CompiledRegexp Syn)
    (nSnippets : Int) (s : List Snippet) (chunkStart lineNo : Int) :
    Option (List Snippet) :=
  if chunkStart < (data.length : Int) then
    if _h : (s.length : Int) ≥ nSnippets then some s
    else
      match GetSnippets.body data re chunkStart lineNo with
      | .brk => some s
      | .oob => none
      | .cont it => GetSnippets.loop data re nSnippets (s ++ [it.snip]) it.lineEnd it.lineNo
  else some s
termination_by (nSnippets - s.length).toNat
decreasing_by
  simp only [List.length_append, List.length_singleton]
  push_cast
  omega

/-- Go `GetSnippets(data, re, nSnippets)`. -/
def GetSnippets {Syn : Type} (data : List UInt8) (re : CompiledRegexp Syn)
    (nSnippets : Int) : Option (List Snippet) :=
  GetSnippets.loop data re nSnippets [] 0 1

/-- The loop of `GetSnippets` again, recording for every completed iteration the
values of its locals instead of the snippet alone. -/
def GetSnippets.traceLoop {Syn : Type} (data : List UInt8) (re : CompiledRegexp Syn)
    (nSnippets : Int) (s : List Iter) (chunkStart lineNo : Int) :
    Option (List Iter) :=
  if chunkStart < (data.length : Int) then
    if _h : (s.length : Int) ≥ nSnippets then some s
    else
      match GetSnippets.body data re chunkStart lineNo with
      | .brk => some s
      | .oob => none
      | .cont it => GetSnippets.traceLoop data re nSnippets (s ++ [it]) it.lineEnd it.lineNo
  else some s
termination_by (nSnippets - s.length).toNat
decreasing_by
  simp only [List.length_append, List.length_singleton]
  push_cast
  omega

/-- The iterations `GetSnippets(data, re, nSnippets)` completes, in order. -/
def GetSnippets.trace {Syn : Type} (data : List UInt8) (re : CompiledRegexp Syn)
    (nSnippets : Int) : Option (List Iter) :=
  GetSnippets.traceLoop data re nSnippets [] 0 1

/-- The loop of `GetSnippets` once more, counting how often the loop body is
entered (first component) and how often it gets past the test of the cap at
lines 95-97, that is, how often the matcher is called (second component). -/
def GetSnippets.stepsLoop {Syn : Type} (data : List UInt8) (re : CompiledRegexp Syn)
    (nSnippets : Int) (s : List Snippet) (chunkStart lineNo : Int) : Nat × Nat :=
  if chunkStart < (data.length : Int) then
    if _h : (s.length : Int) ≥ nSnippets then (1, 0)
    else
      match GetSnippets.body data re chunkStart lineNo with
      | .brk => (1, 1)
      | .oob => (1, 1)
      | .cont it =>
        let r := GetSnippets.stepsLoop data re nSnippets (s ++ [it.snip]) it.lineEnd it.lineNo
        (r.1 + 1, r.2 + 1)
  else (0, 0)
termination_by (nSnippets - s.length).toNat
decreasing_by
  simp only [List.length_append, List.length_singleton]
  push_cast
  omega

/-- The two counts for a call `GetSnippets(data, re, nSnippets)`. -/
def GetSnippets.steps {Syn : Type} (data : List UInt8) (re : CompiledRegexp Syn)
    (nSnippets : Int) : Nat × Nat :=
  GetSnippets.stepsLoop data re nSnippets [] 0 1

/-! ## ReadFileContents and Search (source lines 59-73 and 119-147) -/

/-- What a call of `Search` produces: a reply (`&reply, nil`), an error
(`nil, err`), or a run-time panic raised by a slice expression. -/
inductive Outcome where
  | ok (reply : CodeSearchReply)
  | error (msg : String)
  | panic
  deriving DecidableEq, Repr

/-- Go `(s *localImpl).ReadFileContents(ctx, ticket)`: the call log and the
result. -/
def ReadFileContents {Syn Query : Type} (env : Env Syn Query) (ticket : String) :
    List (Call Syn Query) × Except String (List UInt8) :=
  match env.Decorations ticket with
  | .error err => ([.Decorations ticket], .error ("Decorations request failed: " ++ err))
  | .ok sourceText => ([.Decorations ticket], .ok sourceText)

/-- The `for ... range` loop of `Search`, lines 129-145, over the file ids that
remain, from the reply accumulated so far. -/
def Search.loop {Syn Query : Type} (env : Env Syn Query) (re : CompiledRegexp Syn) :
    List Nat → CodeSearchReply → List (Call Syn Query) × Outcome
  | [], reply => ([], .ok reply)
  | fileid :: rest, reply =>
    let fn := env.Name fileid
    let fetched := ReadFileContents env fn
    match fetched.2 with
    | .error err =>
      (.Name fileid :: fetched.1, .error ("Search in file contents failed: " ++ err))
    | .ok data =>
      match GetSnippets data re 5 with
      | none => (.Name fileid :: fetched.1, .panic)
      | some snippets =>
        let m : Match := ⟨fn, snippets⟩
        let reply := if m.Snippet.length > 0 then ⟨reply.Match ++ [m]⟩ else reply
        let r := Search.loop env re rest reply
        (.Name fileid :: fetched.1 ++ r.1, r.2)

/-- Go `(s *localImpl).Search(ctx, req)`: the call log and the outcome. -/
def Search {Syn Query : Type} (env : Env Syn Query) (req : CodeSearchRequest) :
    List (Call Syn Query) × Outcome :=
  match req.Regexp with
  | none => ([], .error "No search regexp provided.")
  | some r =>
    let compiled := Regexp.Compile env r
    match compiled.2 with
    | .error err => (compiled.1, .error ("Search regexp compilation error: " ++ err))
    | .ok re =>
      let q := env.RegexpQuery re.Syntax
      let ids := env.PostingQuery q
      let r := Search.loop env re ids ⟨[]⟩
      (compiled.1 ++ [.RegexpQuery re.Syntax, .PostingQuery q] ++ r.1, r.2)

/-! ## The handler of RegisterHTTPHandlers (source lines 154-175) -/

/-- Go `http.StatusBadRequest`. -/
def StatusBadRequest : Nat := 400

/-- Go `http.StatusInternalServerError`. -/
def StatusInternalServerError : Nat := 500

/-- What the handler does with the response writer: the call
`http.Error(w, msg, code)`, which replies with the status `code` and the text
`msg`; the call `web.WriteResponse(w, r, reply)`; or a panic raised under
`Search`. -/
inductive Response where
  | Error (msg : String) (code : Nat)
  | WriteResponse (reply : CodeSearchReply)
  | panic
  deriving DecidableEq, Repr

/-- The function registered for `/codesearch`, from the result of
`web.ReadJSONBody(r, &req)` (the decoded request, or the error) and the service
`s`, given by what its `Search` produces. The timing log is left out. -/
def RegisterHTTPHandlers.handler (readJSONBody : Except String CodeSearchRequest)
    (search : CodeSearchRequest → Outcome) : Response :=
  match readJSONBody with
  | .error err => .Error err StatusBadRequest
  | .ok req =>
    match search req with
    | .error err => .Error err StatusInternalServerError
    | .panic => .panic
    | .ok reply => .WriteResponse reply

/-! ## Predicates used to state the properties -/

/-- The matcher honours the contract of `Match` on every window `data[k:]` that
`GetSnippets` can search: the reported end offset is `-1` or lies within the
window. -/
def MatchInWindow {Syn : Type} (re : CompiledRegexp Syn) (data : List UInt8) : Prop :=
  ∀ k : Nat, k < data.length →
    re.Match (data.drop k) true true = -1 ∨
      (0 ≤ re.Match (data.drop k) true true ∧
        re.Match (data.drop k) true true ≤ ((data.drop k).length : Int))

/-- The list `tr` is a run of successive loop iterations of `GetSnippets` that
starts with the loop variables `chunkStart` and `lineNo`: each element is what
the loop body yields from the values left by the one before. -/
def IterChain {Syn : Type} (data : List UInt8) (re : CompiledRegexp Syn) :
    Int → Int → List Iter → Prop
  | _, _, [] => True
  | chunkStart, lineNo, it :: rest =>
    GetSnippets.body data re chunkStart lineNo = .cont it ∧
      IterChain data re it.lineEnd it.lineNo rest

/-- The precondition on the matcher in its weakest form: on every window
`data[k:]` that `GetSnippets` can search, `Match` returns a negative number or an
offset `r` with `0 ≤ r ≤ len(window)`. -/
def MatchInRange {Syn : Type} (re : CompiledRegexp Syn) (data : List UInt8) : Prop :=
  ∀ k : Nat, k < data.length →
    re.Match (data.drop k) true true < 0 ∨
      (0 ≤ re.Match (data.drop k) true true ∧
        re.Match (data.drop k) true true ≤ ((data.drop k).length : Int))

/-- The calls `Search` makes for one candidate: the name lookup, then the fetch
of the content under that name. -/
def candidateCalls {Syn Query : Type} (env : Env Syn Query) (fileid : Nat) :
    List (Call Syn Query) :=
  [.Name fileid, .Decorations (env.Name fileid)]

/-- The entry the specification gives a candidate in the reply: a `Match` with
the index-resolved name and the snippets of `GetSnippets(content, matcher, 5)`
when there is at least one snippet, and no entry otherwise. -/
def specMatch {Syn Query : Type} (env : Env Syn Query) (re : CompiledRegexp Syn)
    (fileid : Nat) : Option Match :=
  match env.Decorations (env.Name fileid) with
  | .error _ => none
  | .ok data =>
    match GetSnippets data re 5 with
    | none => none
    | some snippets => if snippets = [] then none else some ⟨env.Name fileid, snippets⟩

/-- The error `Search` returns when the content fetch fails with `err`. -/
def fetchError (err : String) : String :=
  "Search in file contents failed: " ++ ("Decorations request failed: " ++ err)

/-! ## Sample matchers and environments -/

/-- A matcher that reports a match ending at the end of every window. -/
def reEnd : CompiledRegexp Unit := ⟨(), fun w _ _ => w.length⟩

/-- A matcher that never matches. -/
def reNone : CompiledRegexp Unit := ⟨(), fun _ _ _ => -1⟩

/-- A matcher whose every match is empty and ends at the cursor. -/
def reZero : CompiledRegexp Unit := ⟨(), fun _ _ _ => 0⟩

/-- An environment over a fixed matcher and a table of files (name, and content
or fetch error); file ids are positions in the table, and the one expression the
compiler rejects is an unbalanced parenthesis. -/
def sampleEnv (re : CompiledRegexp Unit)
    (files : List (String × Except String (List UInt8))) : Env Unit Unit where
  regexpCompile := fun expr =>
    if expr = "(" ∨ expr = "(?i)(" then .error "missing closing )" else .ok re
  RegexpQuery := fun _ => ()
  PostingQuery := fun _ => List.range files.length
  Name := fun fileid => (files.map Prod.fst).getD fileid ""
  Decorations := fun ticket => (files.lookup ticket).getD (.error "no such file")

/-- Three files, the second of which cannot be fetched. -/
def filesOneUnreadable : List (String × Except String (List UInt8)) :=
  [("a.go", .ok [97, 10, 98]), ("b.go", .error "unavailable"), ("c.go", .ok [99])]

/-- Three readable files, the second of which is empty. -/
def filesReadable : List (String × Except String (List UInt8)) :=
  [("a.go", .ok [97, 10, 98]), ("b.go", .ok []), ("c.go", .ok [99])]

/-- One file, holding the single byte `a`. -/
def filesSingle : List (String × Except String (List UInt8)) :=
  [("a.go", .ok [97])]

/-- A run of `k` newline bytes followed by the byte `a`: `k` empty lines, then a
last line `"a"` without a final newline. -/
def manyNewlines (k : Nat) : List UInt8 := List.replicate k NL ++ [97]

/-- A matcher that reports offset 1 on the window of `k + 2` bytes and the end of
the window on any other: on `"a" ++ manyNewlines k` it is what a matcher of the
lines holding an `a` reports. -/
def reLines (k : Nat) : CompiledRegexp Unit :=
  ⟨(), fun w _ _ => if w.length = k + 2 then 1 else w.length⟩

/-- Lower case of an ASCII letter. -/
def toLower (c : UInt8) : UInt8 := if 65 ≤ c ∧ c ≤ 90 then c + 32 else c

/-- Whether the literal `pat` stands at the start of `w`, letters compared without
regard to case when `fold` is set. -/
def literalAt (fold : Bool) : List UInt8 → List UInt8 → Bool
  | [], _ => true
  | _ :: _, [] => false
  | p :: ps, c :: cs =>
    (if fold then toLower p == toLower c else p == c) && literalAt fold ps cs

/-- The end offset of the leftmost occurrence of the literal `pat` in `w`, or
`-1`. -/
def leftmostMatchEnd (fold : Bool) (pat : List UInt8) : List UInt8 → Int
  | [] => if literalAt fold pat [] then (pat.length : Int) else -1
  | c :: cs =>
    if literalAt fold pat (c :: cs) then (pat.length : Int)
    else
      let r := leftmostMatchEnd fold pat cs
      if r < 0 then -1 else r + 1

/-- The method `Match` of the codesearch library for a literal pattern `pat`
without newline. The library matches line by line: it reports the offset at
which the first line of `w` that holds `pat` ends (the offset of the newline
that ends it, or the length of `w` for a last line without one), or `-1` when no
line holds `pat`. The source names the reported offset `lineEnd`. -/
def lineMatchEnd (fold : Bool) (pat : List UInt8) (w : List UInt8) : Int :=
  let e := leftmostMatchEnd fold pat w
  if e < 0 then -1
  else
    let i := IndexByte (w.drop e.toNat) NL
    if i < 0 then (w.length : Int) else e + i

/-- The bytes of `"foo"`. -/
def fooBytes : List UInt8 := [102, 111, 111]

/-- The bytes of `"foobar"`. -/
def foobarBytes : List UInt8 := [102, 111, 111, 98, 97, 114]

/-- The bytes of `"foo\nbar\nfoobar\n"`. -/
def fooFile : List UInt8 :=
  [102, 111, 111, 10, 98, 97, 114, 10, 102, 111, 111, 98, 97, 114, 10]

/-- The bytes of `"foo\n"`. -/
def fooLine : List UInt8 := [102, 111, 111, 10]

/-- One file, holding a single newline byte. -/
def filesNewline : List (String × Except String (List UInt8)) :=
  [("a.go", .ok [10])]

/-- The method `Match` of the codesearch library for a pattern that matches the
empty string, such as `o*` or `x*`: every line matches, so the offset reported
is the one at which the first line of `w` ends. -/
def reEveryLine : CompiledRegexp Unit :=
  ⟨(), fun w _ _ => if IndexByte w NL < 0 then (w.length : Int) else IndexByte w NL⟩

/-- The compiled pattern `"foo"`: its `Match` reports the end of the first line
that holds `"foo"`, letters compared without regard to case when `fold` is set. -/
def reFooLine (fold : Bool) : CompiledRegexp Unit :=
  ⟨(), fun w _ _ => lineMatchEnd fold fooBytes w⟩

/-- An environment whose index holds the single file `"a.go"` with the content
`"foo\nbar\nfoobar\n"` and whose compiler knows the expressions `"foo"` and
`"(?i)foo"`, compiled to `reFooLine false`, respectively `reFooLine true`. -/
def fooEnv : Env Unit Unit where
  regexpCompile := fun expr =>
    if expr = "foo" then .ok (reFooLine false)
    else if expr = "(?i)foo" then .ok (reFooLine true)
    else .error "unsupported expression"
  RegexpQuery := fun _ => ()
  PostingQuery := fun _ => [0]
  Name := fun _ => "a.go"
  Decorations := fun ticket =>
    if ticket = "a.go" then .ok fooFile else .error "no such file"

/-! ## Facts about the byte-slice primitives -/

theorem IndexByte_lt (b : List UInt8) (c : UInt8) : IndexByte b c < (b.length : Int) := by
  induction b with
  | nil => simp [IndexByte]
  | cons x xs ih =>
    simp only [IndexByte, List.length_cons]
    split
    · omega
    · split <;> push_cast <;> omega

theorem IndexByte_ge (b : List UInt8) (c : UInt8) : -1 ≤ IndexByte b c := by
  induction b with
  | nil => simp [IndexByte]
  | cons x xs ih =>
    simp only [IndexByte]
    split
    · omega
    · split <;> omega

theorem IndexByte_neg_count (b : List UInt8) (c : UInt8) (h : IndexByte b c < 0) :
    b.count c = 0 := by
  induction b with
  | nil => simp
  | cons x xs ih =>
    simp only [IndexByte] at h
    split at h
    · omega
    · rename_i hx
      split at h
      · rename_i hr
        rw [List.count_cons_of_ne (Ne.symm hx)]
        exact ih hr
      · have := IndexByte_ge xs c
        omega

theorem IndexByte_count (b : List UInt8) (c : UInt8) (h : 0 ≤ IndexByte b c) :
    b.count c = (b.drop (IndexByte b c + 1).toNat).count c + 1 := by
  induction b with
  | nil => simp [IndexByte] at h
  | cons x xs ih =>
    simp only [IndexByte] at h ⊢
    split
    · rename_i hx
      subst hx
      simp
    · rename_i hx
      split
      · rename_i hr
        rw [if_neg hx, if_pos hr] at h
        omega
      · rename_i hr
        have hr0 : 0 ≤ IndexByte xs c := by omega
        have e : (IndexByte xs c + 1 + 1).toNat = (IndexByte xs c + 1).toNat + 1 := by omega
        rw [e, List.drop_succ_cons, List.count_cons_of_ne (Ne.symm hx)]
        exact ih hr0

theorem countNL_loop_eq (b : List UInt8) (n : Int) :
    countNL.loop b n = n + (b.count NL : Int) := by
  induction b, n using countNL.loop.induct with
  | case1 b n i hi =>
    have hneg : IndexByte b NL < 0 := hi
    rw [countNL.loop]
    simp only [hneg, ↓reduceDIte]
    rw [IndexByte_neg_count b NL hneg]
    simp
  | case2 b n i hi ih =>
    have hpos : ¬ IndexByte b NL < 0 := hi
    rw [countNL.loop]
    simp only [hpos, ↓reduceDIte]
    have hi2 : i = IndexByte b NL := rfl
    rw [ih, IndexByte_count b NL (by omega), hi2]
    push_cast
    omega

/-- The value of `countNL(b)` is the number of newline bytes of `b`. -/
theorem countNL_eq_count (b : List UInt8) : countNL b = (b.count NL : Int) := by
  rw [countNL, countNL_loop_eq]
  simp

theorem LastIndex_ge (b : List UInt8) (c : UInt8) : -1 ≤ LastIndex b c := by
  induction b with
  | nil => simp [LastIndex]
  | cons x xs ih =>
    simp only [LastIndex]
    split
    · omega
    · split <;> omega

theorem LastIndex_lt (b : List UInt8) (c : UInt8) : LastIndex b c < (b.length : Int) := by
  induction b with
  | nil => simp [LastIndex]
  | cons x xs ih =>
    simp only [LastIndex, List.length_cons]
    push_cast
    split
    · omega
    · split <;> omega

/-- No byte `c` stands after the position `LastIndex b c`. -/
theorem LastIndex_count_drop (b : List UInt8) (c : UInt8) :
    (b.drop (LastIndex b c + 1).toNat).count c = 0 := by
  induction b with
  | nil => simp
  | cons x xs ih =>
    have hge := LastIndex_ge xs c
    simp only [LastIndex]
    split
    · rename_i hr
      have e : (LastIndex xs c + 1 + 1).toNat = (LastIndex xs c + 1).toNat + 1 := by omega
      rw [e, List.drop_succ_cons]
      exact ih
    · rename_i hr
      have e : (LastIndex xs c + 1).toNat = 0 := by omega
      rw [e, List.drop_zero] at ih
      split
      · simpa using ih
      · rename_i hx
        simp only [Int.reduceNeg, neg_add_cancel, Int.toNat_zero, List.drop_zero]
        rw [List.count_cons_of_ne (Ne.symm hx)]
        exact ih

theorem slice_eq_some {b : List UInt8} {lo hi : Int} {x : List UInt8}
    (h : slice b lo hi = some x) :
    0 ≤ lo ∧ lo ≤ hi ∧ hi ≤ (b.length : Int) ∧ x = (b.take hi.toNat).drop lo.toNat := by
  unfold slice at h
  split at h
  · rename_i hc
    simp only [Option.some.injEq] at h
    exact ⟨hc.1, hc.2.1, hc.2.2, h.symm⟩
  · simp at h

theorem slice_of_le {b : List UInt8} {lo hi : Int}
    (h0 : 0 ≤ lo) (h1 : lo ≤ hi) (h2 : hi ≤ (b.length : Int)) :
    slice b lo hi = some ((b.take hi.toNat).drop lo.toNat) := by
  unfold slice
  rw [if_pos ⟨h0, h1, h2⟩]

/-- Newlines before offset `b` are those before `a` plus those of `data[a:b]`. -/
theorem count_take_split (data : List UInt8) (c : UInt8) (a b : Nat) (h : a ≤ b) :
    (data.take b).count c = (data.take a).count c + ((data.take b).drop a).count c := by
  have e : (data.take b).take a = data.take a := by
    rw [List.take_take, Nat.min_eq_left h]
  rw [← e, ← List.count_append, List.take_append_drop]

/-! ## Facts about one loop iteration of GetSnippets -/

/-- What a completed loop iteration establishes. -/
theorem body_cont {Syn : Type} {data : List UInt8} {re : CompiledRegexp Syn}
    {chunkStart lineNo : Int} {it : Iter}
    (h : GetSnippets.body data re chunkStart lineNo = .cont it) :
    it.chunkStart = chunkStart ∧ 0 ≤ chunkStart ∧
    it.mIdx = re.Match (data.drop chunkStart.toNat) true true + chunkStart ∧
    chunkStart ≤ it.lineStart ∧ it.lineStart ≤ it.mIdx ∧
    it.mIdx ≤ (data.length : Int) ∧ it.lineEnd = it.mIdx ∧
    it.lineStart =
      LastIndex ((data.take it.mIdx.toNat).drop chunkStart.toNat) NL + 1 + chunkStart ∧
    it.lineNo =
      lineNo + (((data.take it.lineStart.toNat).drop chunkStart.toNat).count NL : Int) ∧
    it.snip = ⟨(data.take it.mIdx.toNat).drop it.lineStart.toNat, int32 it.lineNo⟩ := by
  unfold GetSnippets.body at h
  split at h
  · simp at h
  · rename_i window hw
    obtain ⟨hw0, hw1, _, hwe⟩ := slice_eq_some hw
    simp only [Int.toNat_ofNat, List.take_length] at hwe
    subst hwe
    simp only at h
    split at h
    · simp at h
    · rename_i hm
      split at h
      · simp at h
      · rename_i upTo hu
        obtain ⟨_, hu1, hu2, hue⟩ := slice_eq_some hu
        subst hue
        have hclamp : (if re.Match (List.drop chunkStart.toNat data) true true + chunkStart
            > (data.length : Int) then (data.length : Int)
            else re.Match (List.drop chunkStart.toNat data) true true + chunkStart)
            = re.Match (List.drop chunkStart.toNat data) true true + chunkStart := by
          rw [if_neg (by omega)]
        rw [hclamp] at h
        split at h
        · simp at h
        · rename_i skipped hs
          obtain ⟨_, hs1, _, hse⟩ := slice_eq_some hs
          subst hse
          split at h
          · simp at h
          · rename_i line hl
            obtain ⟨_, hl1, _, hle⟩ := slice_eq_some hl
            subst hle
            simp only [Step.cont.injEq] at h
            subst h
            simp only [countNL_eq_count]
            exact ⟨trivial, hw0, trivial, hs1, hl1, hu2, trivial, trivial, trivial, trivial⟩

/-- The text of a snippet holds no newline byte. -/
theorem body_cont_no_newline {Syn : Type} {data : List UInt8} {re : CompiledRegexp Syn}
    {chunkStart lineNo : Int} {it : Iter}
    (h : GetSnippets.body data re chunkStart lineNo = .cont it) :
    ((data.take it.mIdx.toNat).drop it.lineStart.toNat).count NL = 0 := by
  obtain ⟨_, h0, _, h1, _, _, _, hls, _, _⟩ := body_cont h
  have hge := LastIndex_ge ((data.take it.mIdx.toNat).drop chunkStart.toNat) NL
  have e : it.lineStart.toNat = chunkStart.toNat +
      (LastIndex ((data.take it.mIdx.toNat).drop chunkStart.toNat) NL + 1).toNat := by
    omega
  rw [e, ← List.drop_drop]
  exact LastIndex_count_drop _ _

/-- The line counter after an iteration, when it was right before it. -/
theorem body_cont_lineNo {Syn : Type} {data : List UInt8} {re : CompiledRegexp Syn}
    {chunkStart lineNo : Int} {it : Iter}
    (h : GetSnippets.body data re chunkStart lineNo = .cont it)
    (hinv : lineNo = 1 + ((data.take chunkStart.toNat).count NL : Int)) :
    it.lineNo = 1 + ((data.take it.lineStart.toNat).count NL : Int) ∧
    it.lineNo = 1 + ((data.take it.mIdx.toNat).count NL : Int) := by
  have hnn := body_cont_no_newline h
  obtain ⟨_, h0, _, h1, h2, _, _, _, hno, _⟩ := body_cont h
  have s1 := count_take_split data NL chunkStart.toNat it.lineStart.toNat (by omega)
  have s2 := count_take_split data NL it.lineStart.toNat it.mIdx.toNat (by omega)
  rw [hno, hinv]
  constructor
  · omega
  · omega

/-- Under the contract of `Match` no slice expression of the loop body panics. -/
theorem body_ne_oob {Syn : Type} {data : List UInt8} {re : CompiledRegexp Syn}
    (hre : MatchInWindow re data) {chunkStart : Int} (lineNo : Int)
    (h0 : 0 ≤ chunkStart) (h1 : chunkStart < (data.length : Int)) :
    GetSnippets.body data re chunkStart lineNo ≠ .oob := by
  have hk : chunkStart.toNat < data.length := by omega
  have hc := hre chunkStart.toNat hk
  rw [List.length_drop] at hc
  unfold GetSnippets.body
  rw [slice_of_le h0 (by omega) (le_refl _)]
  simp only [Int.toNat_ofNat, List.take_length]
  split
  · simp
  · rename_i hm
    have hr : 0 ≤ re.Match (List.drop chunkStart.toNat data) true true ∧
        re.Match (List.drop chunkStart.toNat data) true true
          ≤ ((data.length - chunkStart.toNat : Nat) : Int) := by
      rcases hc with hc | hc
      · omega
      · exact hc
    have hle : re.Match (List.drop chunkStart.toNat data) true true + chunkStart
        ≤ (data.length : Int) := by omega
    rw [slice_of_le h0 (by omega) hle]
    simp only
    rw [if_neg (by omega)]
    have hge := LastIndex_ge ((data.take (re.Match (List.drop chunkStart.toNat data) true true
      + chunkStart).toNat).drop chunkStart.toNat) NL
    have hlt := LastIndex_lt ((data.take (re.Match (List.drop chunkStart.toNat data) true true
      + chunkStart).toNat).drop chunkStart.toNat) NL
    rw [List.length_drop, List.length_take] at hlt
    rw [slice_of_le h0 (by omega) (by omega)]
    simp only
    rw [slice_of_le (by omega) (by omega) hle]
    simp

/-! ## Facts about the loop of GetSnippets -/

/-- The snippets are those of the recorded iterations. -/
theorem loop_eq_traceLoop {Syn : Type} (data : List UInt8) (re : CompiledRegexp Syn)
    (nSnippets : Int) (s : List Iter) (chunkStart lineNo : Int) :
    GetSnippets.loop data re nSnippets (s.map Iter.snip) chunkStart lineNo =
      (GetSnippets.traceLoop data re nSnippets s chunkStart lineNo).map (List.map Iter.snip) := by
  induction s, chunkStart, lineNo using GetSnippets.traceLoop.induct data re nSnippets with
  | case1 s cs ln h1 h2 =>
    rw [GetSnippets.loop, GetSnippets.traceLoop]
    simp [h1, h2]
  | case2 s cs ln h1 h2 hb =>
    rw [GetSnippets.loop, GetSnippets.traceLoop]
    simp [h1, h2, hb]
  | case3 s cs ln h1 h2 hb =>
    rw [GetSnippets.loop, GetSnippets.traceLoop]
    simp [h1, h2, hb]
  | case4 s cs ln h1 h2 a hb ih =>
    rw [GetSnippets.loop, GetSnippets.traceLoop]
    simp only [List.map_append, List.map_cons, List.map_nil] at ih
    simp [h1, h2, hb, ih]
  | case5 s cs ln h1 =>
    rw [GetSnippets.loop, GetSnippets.traceLoop]
    simp [h1]

/-- The snippets `GetSnippets` returns are those of the iterations it completes. -/
theorem GetSnippets_eq_trace {Syn : Type} (data : List UInt8) (re : CompiledRegexp Syn)
    (nSnippets : Int) :
    GetSnippets data re nSnippets =
      (GetSnippets.trace data re nSnippets).map (List.map Iter.snip) := by
  have h := loop_eq_traceLoop data re nSnippets [] 0 1
  simpa [GetSnippets, GetSnippets.trace] using h

/-- What the loop returns extends `s` by a run of successive iterations, and is no
longer than the larger of `len(s)` and `nSnippets`. -/
theorem traceLoop_spec {Syn : Type} (data : List UInt8) (re : CompiledRegexp Syn)
    (nSnippets : Int) (s : List Iter) (chunkStart lineNo : Int) :
    ∀ r, GetSnippets.traceLoop data re nSnippets s chunkStart lineNo = some r →
      ∃ t, r = s ++ t ∧ IterChain data re chunkStart lineNo t ∧
        (r.length : Int) ≤ max (s.length : Int) nSnippets := by
  induction s, chunkStart, lineNo using GetSnippets.traceLoop.induct data re nSnippets with
  | case1 s cs ln h1 h2 =>
    intro r hr
    rw [GetSnippets.traceLoop] at hr
    simp only [h1, h2, ↓reduceIte, ↓reduceDIte, Option.some.injEq] at hr
    subst hr
    exact ⟨[], by simp, trivial, le_max_left _ _⟩
  | case2 s cs ln h1 h2 hb =>
    intro r hr
    rw [GetSnippets.traceLoop] at hr
    simp only [h1, h2, hb, ↓reduceIte, ↓reduceDIte, Option.some.injEq] at hr
    subst hr
    exact ⟨[], by simp, trivial, le_max_left _ _⟩
  | case3 s cs ln h1 h2 hb =>
    intro r hr
    rw [GetSnippets.traceLoop] at hr
    simp [h1, h2, hb] at hr
  | case4 s cs ln h1 h2 a hb ih =>
    intro r hr
    rw [GetSnippets.traceLoop] at hr
    simp only [h1, h2, hb, ↓reduceIte, ↓reduceDIte] at hr
    obtain ⟨t, ht, hchain, hlen⟩ := ih r hr
    refine ⟨a :: t, by simpa using ht, ⟨hb, hchain⟩, ?_⟩
    simp only [List.length_append, List.length_singleton, Nat.cast_add, Nat.cast_one] at hlen
    omega
  | case5 s cs ln h1 =>
    intro r hr
    rw [GetSnippets.traceLoop] at hr
    simp only [h1, ↓reduceIte, Option.some.injEq] at hr
    subst hr
    exact ⟨[], by simp, trivial, le_max_left _ _⟩

/-- Under the contract of `Match` the loop returns. -/
theorem traceLoop_returns {Syn : Type} (data : List UInt8) (re : CompiledRegexp Syn)
    (hre : MatchInWindow re data) (nSnippets : Int) (s : List Iter)
    (chunkStart lineNo : Int) :
    0 ≤ chunkStart → ∃ r, GetSnippets.traceLoop data re nSnippets s chunkStart lineNo = some r := by
  induction s, chunkStart, lineNo using GetSnippets.traceLoop.induct data re nSnippets with
  | case1 s cs ln h1 h2 =>
    intro _
    rw [GetSnippets.traceLoop]
    simp [h1, h2]
  | case2 s cs ln h1 h2 hb =>
    intro _
    rw [GetSnippets.traceLoop]
    simp [h1, h2, hb]
  | case3 s cs ln h1 h2 hb =>
    intro h0
    exact absurd hb (body_ne_oob hre ln h0 h1)
  | case4 s cs ln h1 h2 a hb ih =>
    intro h0
    obtain ⟨_, _, _, hs, hl, _, he, _⟩ := body_cont hb
    obtain ⟨r, hr⟩ := ih (by omega)
    refine ⟨r, ?_⟩
    rw [GetSnippets.traceLoop]
    simp only [h1, h2, hb, ↓reduceIte, ↓reduceDIte]
    exact hr
  | case5 s cs ln h1 =>
    intro _
    rw [GetSnippets.traceLoop]
    simp [h1]

/-! ## Facts about runs of iterations -/

theorem int32_of_range (x : Int) (h0 : -(2 ^ 31) ≤ x) (h1 : x < 2 ^ 31) : int32 x = x := by
  unfold int32
  rw [Int.emod_eq_of_lt (by omega) (by omega)]
  omega

theorem count_take_le (data : List UInt8) (c : UInt8) (k : Nat) :
    (data.take k).count c ≤ data.count c :=
  (List.take_sublist k data).count_le c

/-- Every iteration of a run that starts with a right line counter reports the
physical line of its match. -/
theorem IterChain_forall {Syn : Type} {data : List UInt8} {re : CompiledRegexp Syn} :
    ∀ (t : List Iter) (chunkStart lineNo : Int),
      IterChain data re chunkStart lineNo t →
      lineNo = 1 + ((data.take chunkStart.toNat).count NL : Int) →
      ∀ it ∈ t,
        it.lineNo = 1 + ((data.take it.lineStart.toNat).count NL : Int) ∧
        it.lineNo = 1 + ((data.take it.mIdx.toNat).count NL : Int) ∧
        it.mIdx = re.Match (data.drop it.chunkStart.toNat) true true + it.chunkStart ∧
        0 ≤ it.chunkStart ∧ it.chunkStart ≤ it.lineStart ∧ it.lineStart ≤ it.mIdx ∧
        it.mIdx ≤ (data.length : Int) ∧
        it.snip = ⟨(data.take it.mIdx.toNat).drop it.lineStart.toNat, int32 it.lineNo⟩ := by
  intro t
  induction t with
  | nil => intro _ _ _ _ it hit; simp at hit
  | cons a rest ih =>
    intro cs ln hchain hinv it hit
    obtain ⟨hb, hrest⟩ := hchain
    obtain ⟨hl1, hl2⟩ := body_cont_lineNo hb hinv
    obtain ⟨hcs, h0, hm, h1, h2, h3, he, _, _, hsnip⟩ := body_cont hb
    rcases List.mem_cons.1 hit with rfl | hmem
    · refine ⟨hl1, hl2, ?_, ?_, ?_, h2, h3, hsnip⟩
      · rw [hcs]; exact hm
      · rw [hcs]; exact h0
      · rw [hcs]; exact h1
    · exact ih a.lineEnd a.lineNo hrest (by rw [he]; exact hl2) it hmem

/-- The line counter never decreases along a run of iterations. -/
theorem IterChain_lineNo_ge {Syn : Type} {data : List UInt8} {re : CompiledRegexp Syn} :
    ∀ (t : List Iter) (chunkStart lineNo : Int),
      IterChain data re chunkStart lineNo t → ∀ it ∈ t, lineNo ≤ it.lineNo := by
  intro t
  induction t with
  | nil => intro _ _ _ it hit; simp at hit
  | cons a rest ih =>
    intro cs ln hchain it hit
    obtain ⟨hb, hrest⟩ := hchain
    obtain ⟨_, _, _, _, _, _, _, _, hno, _⟩ := body_cont hb
    have ha : ln ≤ a.lineNo := by rw [hno]; omega
    rcases List.mem_cons.1 hit with rfl | hmem
    · exact ha
    · exact le_trans ha (ih a.lineEnd a.lineNo hrest it hmem)

theorem IterChain_pairwise {Syn : Type} {data : List UInt8} {re : CompiledRegexp Syn} :
    ∀ (t : List Iter) (chunkStart lineNo : Int),
      IterChain data re chunkStart lineNo t →
      List.Pairwise (fun a b : Iter => a.lineNo ≤ b.lineNo) t := by
  intro t
  induction t with
  | nil => intro _ _ _; exact List.Pairwise.nil
  | cons a rest ih =>
    intro cs ln hchain
    obtain ⟨_, hrest⟩ := hchain
    exact List.pairwise_cons.2
      ⟨fun b hb => IterChain_lineNo_ge rest a.lineEnd a.lineNo hrest b hb,
        ih a.lineEnd a.lineNo hrest⟩

/-- The iterations `GetSnippets` completes form a run from offset 0 and line 1,
and there are no more of them than `nSnippets` allows. -/
theorem trace_spec {Syn : Type} {data : List UInt8} {re : CompiledRegexp Syn}
    {nSnippets : Int} {tr : List Iter}
    (h : GetSnippets.trace data re nSnippets = some tr) :
    IterChain data re 0 1 tr ∧ (tr.length : Int) ≤ max 0 nSnippets := by
  obtain ⟨t, ht, hchain, hlen⟩ := traceLoop_spec data re nSnippets [] 0 1 tr h
  simp only [List.nil_append] at ht
  subst ht
  exact ⟨hchain, by simpa using hlen⟩

/-- Under the contract of `Match`, `GetSnippets` returns. -/
theorem trace_returns {Syn : Type} (data : List UInt8) (re : CompiledRegexp Syn)
    (hre : MatchInWindow re data) (nSnippets : Int) :
    ∃ tr, GetSnippets.trace data re nSnippets = some tr :=
  traceLoop_returns data re hre nSnippets [] 0 1 (le_refl 0)

theorem GetSnippets_some_iff_trace {Syn : Type} {data : List UInt8}
    {re : CompiledRegexp Syn} {nSnippets : Int} {s : List Snippet}
    (h : GetSnippets data re nSnippets = some s) :
    ∃ tr, GetSnippets.trace data re nSnippets = some tr ∧ s = tr.map Iter.snip := by
  rw [GetSnippets_eq_trace] at h
  cases htr : GetSnippets.trace data re nSnippets with
  | none => rw [htr] at h; simp at h
  | some tr =>
    rw [htr] at h
    simp only [Option.map_some', Option.some.injEq] at h
    exact ⟨tr, rfl, h.symm⟩

/-! ## Facts about Search -/

theorem ReadFileContents_log {Syn Query : Type} (env : Env Syn Query) (ticket : String) :
    (ReadFileContents env ticket).1 = [.Decorations ticket] := by
  unfold ReadFileContents
  split <;> rfl

theorem ReadFileContents_ok {Syn Query : Type} (env : Env Syn Query) (ticket : String)
    (data : List UInt8) (h : env.Decorations ticket = .ok data) :
    (ReadFileContents env ticket).2 = .ok data := by
  unfold ReadFileContents
  rw [h]

theorem ReadFileContents_error {Syn Query : Type} (env : Env Syn Query) (ticket : String)
    (err : String) (h : env.Decorations ticket = .error err) :
    (ReadFileContents env ticket).2 = .error ("Decorations request failed: " ++ err) := by
  unfold ReadFileContents
  rw [h]

/-- One turn of the loop of `Search` on a candidate whose content is fetched and
whose snippets are extracted. -/
theorem Search_loop_cons_ok {Syn Query : Type} (env : Env Syn Query)
    (re : CompiledRegexp Syn) (fileid : Nat) (rest : List Nat) (reply : CodeSearchReply)
    (data : List UInt8) (snippets : List Snippet)
    (hd : env.Decorations (env.Name fileid) = .ok data)
    (hs : GetSnippets data re 5 = some snippets) :
    Search.loop env re (fileid :: rest) reply =
      (candidateCalls env fileid ++
          (Search.loop env re rest
            (if snippets = [] then reply
              else ⟨reply.Match ++ [⟨env.Name fileid, snippets⟩]⟩)).1,
        (Search.loop env re rest
            (if snippets = [] then reply
              else ⟨reply.Match ++ [⟨env.Name fileid, snippets⟩]⟩)).2) := by
  rw [Search.loop]
  simp only [ReadFileContents_ok env _ data hd, ReadFileContents_log, hs]
  by_cases he : snippets = []
  · subst he
    simp [candidateCalls]
  · have hpos : snippets.length > 0 := List.length_pos.2 he
    simp [candidateCalls, hpos, he]

theorem Search_loop_cons_panic {Syn Query : Type} (env : Env Syn Query)
    (re : CompiledRegexp Syn) (fileid : Nat) (rest : List Nat) (reply : CodeSearchReply)
    (data : List UInt8)
    (hd : env.Decorations (env.Name fileid) = .ok data)
    (hs : GetSnippets data re 5 = none) :
    Search.loop env re (fileid :: rest) reply = (candidateCalls env fileid, .panic) := by
  rw [Search.loop]
  simp only [ReadFileContents_ok env _ data hd, ReadFileContents_log, hs]
  simp [candidateCalls]

theorem Search_loop_cons_error {Syn Query : Type} (env : Env Syn Query)
    (re : CompiledRegexp Syn) (fileid : Nat) (rest : List Nat) (reply : CodeSearchReply)
    (err : String)
    (hd : env.Decorations (env.Name fileid) = .error err) :
    Search.loop env re (fileid :: rest) reply =
      (candidateCalls env fileid, .error (fetchError err)) := by
  rw [Search.loop]
  simp only [ReadFileContents_error env _ err hd, ReadFileContents_log]
  simp [candidateCalls, fetchError]

/-- The number of snippets never exceeds the cap. -/
theorem GetSnippets_length_le {Syn : Type} {data : List UInt8} {re : CompiledRegexp Syn}
    {nSnippets : Int} {s : List Snippet} (h : GetSnippets data re nSnippets = some s) :
    (s.length : Int) ≤ max 0 nSnippets := by
  obtain ⟨tr, htr, hs⟩ := GetSnippets_some_iff_trace h
  subst hs
  simpa using (trace_spec htr).2

/-- Under the contract of `Match`, `GetSnippets` returns a list of snippets. -/
theorem GetSnippets_returns {Syn : Type} (data : List UInt8) (re : CompiledRegexp Syn)
    (hre : MatchInWindow re data) (nSnippets : Int) :
    ∃ s, GetSnippets data re nSnippets = some s := by
  obtain ⟨tr, htr⟩ := trace_returns data re hre nSnippets
  exact ⟨tr.map Iter.snip, by rw [GetSnippets_eq_trace, htr]; rfl⟩

/-- When every fetch succeeds and every extraction returns, the loop of `Search`
appends to the reply the entries of the specification, in the order of the
candidates, and makes the calls of every candidate. -/
theorem Search_loop_all_ok {Syn Query : Type} (env : Env Syn Query)
    (re : CompiledRegexp Syn) :
    ∀ (ids : List Nat) (reply : CodeSearchReply),
      (∀ id ∈ ids, ∃ data s, env.Decorations (env.Name id) = .ok data ∧
        GetSnippets data re 5 = some s) →
      Search.loop env re ids reply =
        (ids.flatMap (candidateCalls env),
          .ok ⟨reply.Match ++ ids.filterMap (specMatch env re)⟩) := by
  intro ids
  induction ids with
  | nil => intro reply _; simp [Search.loop]
  | cons id rest ih =>
    intro reply h
    obtain ⟨data, sn, hd, hs⟩ := h id (List.mem_cons_self _ _)
    have hrest : ∀ id ∈ rest, ∃ data s, env.Decorations (env.Name id) = .ok data ∧
        GetSnippets data re 5 = some s := fun i hi => h i (List.mem_cons_of_mem _ hi)
    rw [Search_loop_cons_ok env re id rest reply data sn hd hs, ih _ hrest]
    have hspec : specMatch env re id = if sn = [] then none else some ⟨env.Name id, sn⟩ := by
      simp only [specMatch, hd, hs]
    by_cases he : sn = []
    · simp [he, hspec]
    · simp [he, hspec]

/-- When the first failing fetch is that of `bad`, the loop of `Search` stops
there with the fetch error, unless an extraction panicked before. -/
theorem Search_loop_fail {Syn Query : Type} (env : Env Syn Query)
    (re : CompiledRegexp Syn) (bad : Nat) (post : List Nat) (err : String)
    (hbad : env.Decorations (env.Name bad) = .error err) :
    ∀ (pre : List Nat) (reply : CodeSearchReply),
      (∀ id ∈ pre, ∃ data, env.Decorations (env.Name id) = .ok data) →
      (Search.loop env re (pre ++ bad :: post) reply =
          ((pre ++ [bad]).flatMap (candidateCalls env), .error (fetchError err))) ∨
      ((Search.loop env re (pre ++ bad :: post) reply).2 = .panic ∧
        (Search.loop env re (pre ++ bad :: post) reply).1 <+:
          (pre ++ [bad]).flatMap (candidateCalls env) ∧
        ∃ id ∈ pre, ∃ data, env.Decorations (env.Name id) = .ok data ∧
          GetSnippets data re 5 = none) := by
  intro pre
  induction pre with
  | nil =>
    intro reply _
    left
    simp [Search_loop_cons_error env re bad post reply err hbad]
  | cons id rest ih =>
    intro reply h
    obtain ⟨data, hd⟩ := h id (List.mem_cons_self _ _)
    have hrest : ∀ id ∈ rest, ∃ data, env.Decorations (env.Name id) = .ok data :=
      fun i hi => h i (List.mem_cons_of_mem _ hi)
    cases hs : GetSnippets data re 5 with
    | none =>
      right
      rw [List.cons_append, Search_loop_cons_panic env re id _ reply data hd hs]
      refine ⟨rfl, ?_, id, List.mem_cons_self _ _, data, hd, hs⟩
      simp only [List.cons_append, List.flatMap_cons]
      exact List.prefix_append _ _
    | some sn =>
      rw [List.cons_append, Search_loop_cons_ok env re id _ reply data sn hd hs]
      rcases ih (if sn = [] then reply else ⟨reply.Match ++ [⟨env.Name id, sn⟩]⟩) hrest
        with h1 | ⟨h1, h2, i, hi, d, hid, hin⟩
      · left
        rw [h1]
        simp
      · right
        refine ⟨h1, ?_, i, List.mem_cons_of_mem _ hi, d, hid, hin⟩
        simp only [List.cons_append, List.flatMap_cons]
        exact (List.prefix_append_right_inj _).2 h2

/-- Every entry of a reply of the loop of `Search` that was not there before holds
between one and five snippets. -/
theorem Search_loop_snippet_count {Syn Query : Type} (env : Env Syn Query)
    (re : CompiledRegexp Syn) :
    ∀ (ids : List Nat) (reply r : CodeSearchReply),
      (Search.loop env re ids reply).2 = .ok r →
      (∀ m ∈ reply.Match, 1 ≤ m.Snippet.length ∧ m.Snippet.length ≤ 5) →
      ∀ m ∈ r.Match, 1 ≤ m.Snippet.length ∧ m.Snippet.length ≤ 5 := by
  intro ids
  induction ids with
  | nil =>
    intro reply r h hold
    simp only [Search.loop, Outcome.ok.injEq] at h
    subst h
    exact hold
  | cons id rest ih =>
    intro reply r h hold
    cases hd : env.Decorations (env.Name id) with
    | error err =>
      rw [Search_loop_cons_error env re id rest reply err hd] at h
      simp at h
    | ok data =>
      cases hs : GetSnippets data re 5 with
      | none =>
        rw [Search_loop_cons_panic env re id rest reply data hd hs] at h
        simp at h
      | some sn =>
        rw [Search_loop_cons_ok env re id rest reply data sn hd hs] at h
        refine ih _ r h ?_
        have hlen := GetSnippets_length_le hs
        by_cases he : sn = []
        · simpa [he] using hold
        · simp only [he, ↓reduceIte, List.mem_append, List.mem_singleton]
          rintro m (hm | rfl)
          · exact hold m hm
          · have hpos : 0 < sn.length := List.length_pos.2 he
            simp only
            omega

/-- When the loop of `Search` ends with a reply, every fetch succeeded and every
extraction returned. -/
theorem Search_loop_ok_inv {Syn Query : Type} (env : Env Syn Query)
    (re : CompiledRegexp Syn) :
    ∀ (ids : List Nat) (reply r : CodeSearchReply),
      (Search.loop env re ids reply).2 = .ok r →
      ∀ id ∈ ids, ∃ data s, env.Decorations (env.Name id) = .ok data ∧
        GetSnippets data re 5 = some s := by
  intro ids
  induction ids with
  | nil => intro _ _ _ id hid; simp at hid
  | cons a rest ih =>
    intro reply r h id hid
    cases hd : env.Decorations (env.Name a) with
    | error err =>
      rw [Search_loop_cons_error env re a rest reply err hd] at h
      simp at h
    | ok data =>
      cases hs : GetSnippets data re 5 with
      | none =>
        rw [Search_loop_cons_panic env re a rest reply data hd hs] at h
        simp at h
      | some sn =>
        rw [Search_loop_cons_ok env re a rest reply data sn hd hs] at h
        rcases List.mem_cons.1 hid with rfl | hmem
        · exact ⟨data, sn, hd, hs⟩
        · exact ih _ r h id hmem

theorem Search_of_compiled {Syn Query : Type} (env : Env Syn Query) (r : Regexp)
    (re : CompiledRegexp Syn) (hcomp : (Regexp.Compile env r).2 = .ok re) :
    Search env ⟨some r⟩ =
      ((Regexp.Compile env r).1 ++
          [.RegexpQuery re.Syntax, .PostingQuery (env.RegexpQuery re.Syntax)] ++
          (Search.loop env re (env.PostingQuery (env.RegexpQuery re.Syntax)) ⟨[]⟩).1,
        (Search.loop env re (env.PostingQuery (env.RegexpQuery re.Syntax)) ⟨[]⟩).2) := by
  simp only [Search, hcomp]

theorem Search_of_compile_error {Syn Query : Type} (env : Env Syn Query) (r : Regexp)
    (err : String) (hcomp : (Regexp.Compile env r).2 = .error err) :
    Search env ⟨some r⟩ =
      ((Regexp.Compile env r).1, .error ("Search regexp compilation error: " ++ err)) := by
  simp only [Search, hcomp]

/-! ## Facts used by the claims -/

/-- The candidates up to the first one whose fetch fails. -/
theorem first_failing_candidate {Syn Query : Type} (env : Env Syn Query) :
    ∀ ids : List Nat,
      (∃ id ∈ ids, ∃ err, env.Decorations (env.Name id) = .error err) →
      ∃ pre bad post err, ids = pre ++ bad :: post ∧
        (∀ id ∈ pre, ∃ data, env.Decorations (env.Name id) = .ok data) ∧
        env.Decorations (env.Name bad) = .error err := by
  intro ids
  induction ids with
  | nil => rintro ⟨id, hid, _⟩; simp at hid
  | cons a rest ih =>
    rintro ⟨id, hid, err, herr⟩
    cases ha : env.Decorations (env.Name a) with
    | error e => exact ⟨[], a, rest, e, rfl, by simp, ha⟩
    | ok data =>
      have hrest : ∃ id ∈ rest, ∃ err, env.Decorations (env.Name id) = .error err := by
        rcases List.mem_cons.1 hid with rfl | hmem
        · rw [ha] at herr; simp at herr
        · exact ⟨id, hmem, err, herr⟩
      obtain ⟨pre, bad, post, e, hsplit, hpre, hbad⟩ := ih hrest
      refine ⟨a :: pre, bad, post, e, by rw [hsplit]; rfl, ?_, hbad⟩
      intro i hi
      rcases List.mem_cons.1 hi with rfl | hmem
      · exact ⟨data, ha⟩
      · exact hpre i hmem

/-- The sample matcher `reEnd` reports offsets within every window. -/
theorem reEnd_inWindow (data : List UInt8) : MatchInWindow reEnd data := by
  intro k _
  right
  simp [reEnd]

/-- The first search window is the whole content. -/
theorem slice_whole (data : List UInt8) : slice data 0 (data.length : Int) = some data := by
  rw [slice_of_le (le_refl 0) (by omega) (le_refl _)]
  simp

/-- On a negative report of the first search the loop body breaks. -/
theorem body_brk_of_neg {Syn : Type} (data : List UInt8) (re : CompiledRegexp Syn)
    (lineNo : Int) (h : re.Match data true true < 0) :
    GetSnippets.body data re 0 lineNo = .brk := by
  unfold GetSnippets.body
  rw [slice_whole]
  simp only
  rw [if_pos (by omega)]

/-- No match on the first search: no snippet. -/
theorem GetSnippets_no_match {Syn : Type} (data : List UInt8) (re : CompiledRegexp Syn)
    (n : Int) (h : re.Match data true true < 0) : GetSnippets data re n = some [] := by
  rw [GetSnippets, GetSnippets.loop]
  split
  · split
    · rfl
    · rw [body_brk_of_neg data re 1 h]
  · rfl

/-- An empty match at offset 0 of a non-empty content: the iteration yields an
empty snippet of line 1 and leaves the cursor where it was. -/
theorem body_of_empty_match {Syn : Type} (data : List UInt8) (re : CompiledRegexp Syn)
    (hne : data ≠ []) (h : re.Match data true true = 0) :
    GetSnippets.body data re 0 1 = .cont ⟨0, 0, 0, 0, 1, ⟨[], 1⟩⟩ := by
  have hlen : 0 < data.length := List.length_pos.2 hne
  have hs0 : slice data 0 0 = some [] := by
    rw [slice_of_le (le_refl 0) (le_refl 0) (by omega)]
    simp
  have hl : LastIndex [] NL = -1 := rfl
  have hc : countNL [] = 0 := by rw [countNL_eq_count]; rfl
  have hi : int32 1 = 1 := by decide
  unfold GetSnippets.body
  rw [slice_whole]
  simp only [h, add_zero, lt_self_iff_false, ↓reduceIte, hs0, hl, neg_add_cancel, zero_add,
    hc, add_zero, hi]
  rw [if_neg (by omega)]
  simp only [hs0]

/-- With the cursor stuck at offset 0, the loop fills `s` up to the cap with
empty snippets of line 1. -/
theorem loop_of_empty_match {Syn : Type} (data : List UInt8) (re : CompiledRegexp Syn)
    (hne : data ≠ []) (h : re.Match data true true = 0) (n : Int) :
    ∀ (j k : Nat), (k : Int) + j = n →
      GetSnippets.loop data re n (List.replicate k ⟨[], 1⟩) 0 1 =
        some (List.replicate (k + j) ⟨[], 1⟩) := by
  have hlen : (0 : Int) < (data.length : Int) := by
    have := List.length_pos.2 hne
    omega
  intro j
  induction j with
  | zero =>
    intro k hk
    rw [GetSnippets.loop]
    simp only [hlen, ↓reduceIte, List.length_replicate]
    rw [dif_pos (by omega)]
    rfl
  | succ j ih =>
    intro k hk
    rw [GetSnippets.loop]
    simp only [hlen, ↓reduceIte, List.length_replicate]
    rw [dif_neg (by push_cast at hk; omega)]
    rw [body_of_empty_match data re hne h]
    simp only
    have e : List.replicate k (⟨[], 1⟩ : Snippet) ++ [⟨[], 1⟩] = List.replicate (k + 1) ⟨[], 1⟩ := by
      rw [List.replicate_succ']
    rw [e, ih (k + 1) (by push_cast at hk ⊢; omega)]
    congr 2
    omega

/-- An empty match at offset 0 of a non-empty content: as many empty snippets of
line 1 as the cap allows. -/
theorem GetSnippets_of_empty_match {Syn : Type} (data : List UInt8)
    (re : CompiledRegexp Syn) (hne : data ≠ []) (h : re.Match data true true = 0)
    (n : Int) (hn : 0 ≤ n) :
    GetSnippets data re n = some (List.replicate n.toNat ⟨[], 1⟩) := by
  have := loop_of_empty_match data re hne h n n.toNat 0 (by push_cast; omega)
  simpa [GetSnippets] using this

/-- The sample matcher `reZero` reports offsets within every window. -/
theorem reZero_inWindow (data : List UInt8) : MatchInWindow reZero data := by
  intro k _
  right
  simp [reZero]

theorem slice_nat (data : List UInt8) (a b : Nat) (h1 : a ≤ b) (h2 : b ≤ data.length) :
    slice data (a : Int) (b : Int) = some ((data.take b).drop a) := by
  rw [slice_of_le (by omega) (by omega) (by omega)]
  simp

theorem LastIndex_manyNewlines (k : Nat) : LastIndex (manyNewlines k) NL = (k : Int) - 1 := by
  induction k with
  | zero => decide
  | succ k ih =>
    have e : manyNewlines (k + 1) = NL :: manyNewlines k := by
      simp [manyNewlines, List.replicate_succ]
    rw [e, LastIndex, ih]
    simp only
    split
    · push_cast; omega
    · simp only [↓reduceIte]
      push_cast; omega

theorem length_manyNewlines (k : Nat) : (manyNewlines k).length = k + 1 := by
  simp [manyNewlines]

theorem body_of_newline_run {Syn : Type} (pre : List UInt8) (k : Nat)
    (re : CompiledRegexp Syn) (ln : Int)
    (hm : re.Match (manyNewlines k) true true = (k : Int) + 1) :
    GetSnippets.body (pre ++ manyNewlines k) re pre.length ln =
      .cont ⟨pre.length, (k : Int) + 1 + pre.length, (k : Int) - 1 + 1 + pre.length,
        (k : Int) + 1 + pre.length, ln + k, ⟨[97], int32 (ln + k)⟩⟩ := by
  have hlenN : (pre ++ manyNewlines k).length = pre.length + (k + 1) := by
    rw [List.length_append, length_manyNewlines]
  have hlen : ((pre ++ manyNewlines k).length : Int) = (k : Int) + 1 + pre.length := by
    rw [hlenN]; push_cast; omega
  have e1 : (k : Int) + 1 + pre.length = ((pre.length + (k + 1) : Nat) : Int) := by
    push_cast; omega
  have e2 : (k : Int) - 1 + 1 + pre.length = ((pre.length + k : Nat) : Int) := by
    push_cast; omega
  have hw : slice (pre ++ manyNewlines k) pre.length ((pre ++ manyNewlines k).length : Int)
      = some (manyNewlines k) := by
    rw [slice_nat _ _ _ (by omega) (le_refl _), List.take_length, List.drop_left]
  have hu : slice (pre ++ manyNewlines k) pre.length ((k : Int) + 1 + pre.length)
      = some (manyNewlines k) := by
    rw [← hlen]; exact hw
  have hs : slice (pre ++ manyNewlines k) pre.length ((k : Int) - 1 + 1 + pre.length)
      = some (List.replicate k NL) := by
    rw [e2, slice_nat _ _ _ (by omega) (by omega), List.take_append, List.drop_left]
    simp [manyNewlines]
  have hl : slice (pre ++ manyNewlines k) ((k : Int) - 1 + 1 + pre.length)
      ((k : Int) + 1 + pre.length) = some [97] := by
    rw [e1, e2, slice_nat _ _ _ (by omega) (by omega), ← hlenN, List.take_length,
      ← List.drop_drop, List.drop_left]
    simp [manyNewlines]
  have hc : countNL (List.replicate k NL) = (k : Int) := by
    rw [countNL_eq_count, List.count_replicate_self]
  unfold GetSnippets.body
  rw [hw]
  simp only [hm]
  rw [if_neg (by omega), hu]
  simp only [LastIndex_manyNewlines]
  rw [hs]
  simp only
  rw [if_neg (by omega), hl, hc]

theorem reEnd_manyNewlines (k : Nat) :
    reEnd.Match (manyNewlines k) true true = (k : Int) + 1 := by
  simp [reEnd, length_manyNewlines]

theorem trace_manyNewlines (k : Nat) :
    GetSnippets.trace (manyNewlines k) reEnd 1 =
      some [⟨0, (k : Int) + 1, k, (k : Int) + 1, 1 + k, ⟨[97], int32 (1 + k)⟩⟩] := by
  have hb := body_of_newline_run [] k reEnd 1 (reEnd_manyNewlines k)
  simp only [List.nil_append, List.length_nil, Nat.cast_zero, add_zero, sub_add_cancel] at hb
  have hlen : ((manyNewlines k).length : Int) = (k : Int) + 1 := by
    rw [length_manyNewlines]; push_cast; rfl
  rw [GetSnippets.trace, GetSnippets.traceLoop]
  rw [if_pos (by rw [hlen]; omega), dif_neg (by simp), hb]
  simp only
  rw [GetSnippets.traceLoop, if_neg (by rw [hlen]; omega)]
  rfl

theorem count_manyNewlines (k : Nat) : (manyNewlines k).count NL = k := by
  have h : List.count NL [(97 : UInt8)] = 0 := by decide
  rw [manyNewlines, List.count_append, List.count_replicate_self, h]
  rfl

theorem take_manyNewlines (k : Nat) : (manyNewlines k).take k = List.replicate k NL := by
  rw [manyNewlines, List.take_left']
  simp

theorem int32_wraps : int32 (1 + ((2147483647 : Nat) : Int)) = -2147483648 := by
  decide

/-- The line counter of every iteration `GetSnippets` completes lies between 1 and
1 plus the number of newlines of the content. -/
theorem trace_lineNo_bounds {Syn : Type} {data : List UInt8} {re : CompiledRegexp Syn}
    {n : Int} {tr : List Iter} (h : GetSnippets.trace data re n = some tr) :
    ∀ it ∈ tr, 1 ≤ it.lineNo ∧ it.lineNo ≤ 1 + (data.count NL : Int) := by
  intro it hit
  have hchain := (trace_spec h).1
  have h1 := IterChain_lineNo_ge tr 0 1 hchain it hit
  obtain ⟨h2, _⟩ := IterChain_forall tr 0 1 hchain (by simp) it hit
  have h3 := count_take_le data NL it.lineStart.toNat
  exact ⟨h1, by rw [h2]; omega⟩

/-- The first iteration on a content that starts with the byte `a`, when the
matcher reports offset 1. -/
theorem body_of_first_byte {Syn : Type} (rest : List UInt8) (re : CompiledRegexp Syn)
    (hm : re.Match (97 :: rest) true true = 1) :
    GetSnippets.body (97 :: rest) re 0 1 = .cont ⟨0, 1, 0, 1, 1, ⟨[97], 1⟩⟩ := by
  have hs1 : slice (97 :: rest) 0 1 = some [97] := by
    have := slice_nat (97 :: rest) 0 1 (by omega) (by simp)
    simpa using this
  have hs0 : slice (97 :: rest) 0 0 = some [] := by
    have := slice_nat (97 :: rest) 0 0 (by omega) (by simp)
    simpa using this
  have hl : LastIndex [97] NL = -1 := by decide
  have hc : countNL [] = 0 := by rw [countNL_eq_count]; rfl
  have hi : int32 1 = 1 := by decide
  have hlen : ¬ ((1 : Int) > (((97 :: rest : List UInt8).length : Nat) : Int)) := by
    simp only [List.length_cons]; push_cast; omega
  unfold GetSnippets.body
  rw [slice_whole]
  simp only [hm, add_zero, hs1, hl, neg_add_cancel, hs0, hc, hi]
  rw [if_neg (by omega), if_neg hlen]
  simp only [hs1]

theorem reLines_inWindow (k : Nat) (data : List UInt8) : MatchInWindow (reLines k) data := by
  intro j _
  right
  simp only [reLines]
  split
  · rename_i h
    rw [h]
    constructor
    · omega
    · push_cast; omega
  · constructor
    · exact Int.natCast_nonneg _
    · exact le_refl _

/-- The two snippets of the content `"a"`, then `k` newlines, then `"a"`. -/
theorem GetSnippets_two_lines (k : Nat) :
    GetSnippets (97 :: manyNewlines k) (reLines k) 2 =
      some [⟨[97], 1⟩, ⟨[97], int32 (1 + k)⟩] := by
  have hlenN : (97 :: manyNewlines k).length = k + 2 := by
    rw [List.length_cons, length_manyNewlines]
  have hlen : (((97 :: manyNewlines k).length : Nat) : Int) = (k : Int) + 2 := by
    rw [hlenN]; push_cast; rfl
  have hm1 : (reLines k).Match (97 :: manyNewlines k) true true = 1 := by
    simp only [reLines, hlenN, ↓reduceIte]
  have hm2 : (reLines k).Match (manyNewlines k) true true = (k : Int) + 1 := by
    simp only [reLines, length_manyNewlines]
    rw [if_neg (by omega)]
    push_cast; rfl
  have hb1 := body_of_first_byte (manyNewlines k) (reLines k) hm1
  have hb2 := body_of_newline_run [97] k (reLines k) 1 hm2
  simp only [List.singleton_append, List.length_singleton, Nat.cast_one, sub_add_cancel]
    at hb2
  rw [GetSnippets, GetSnippets.loop]
  rw [if_pos (by rw [hlen]; omega), dif_neg (by simp), hb1]
  simp only [List.nil_append]
  rw [GetSnippets.loop]
  rw [if_pos (by rw [hlen]; omega), dif_neg (by simp), hb2]
  simp only [List.singleton_append]
  rw [GetSnippets.loop, if_neg (by rw [hlen]; omega)]

/-- The loop body in closed form, when the matcher reports the offset `r` within
the window that starts at `chunkStart`. -/
theorem body_of_match {Syn : Type} (data : List UInt8) (re : CompiledRegexp Syn)
    (cs r : Nat) (lineNo : Int)
    (hm : re.Match (data.drop cs) true true = (r : Int))
    (hle : cs + r ≤ data.length) :
    GetSnippets.body data re cs lineNo =
      .cont ⟨cs, (r : Int) + cs,
        LastIndex ((data.take (cs + r)).drop cs) NL + 1 + cs,
        (r : Int) + cs,
        lineNo + (((data.take
          (LastIndex ((data.take (cs + r)).drop cs) NL + 1 + cs).toNat).drop cs).count NL : Int),
        ⟨(data.take (cs + r)).drop
            (LastIndex ((data.take (cs + r)).drop cs) NL + 1 + cs).toNat,
          int32 (lineNo + (((data.take
            (LastIndex ((data.take (cs + r)).drop cs) NL + 1 + cs).toNat).drop cs).count NL
              : Int))⟩⟩ := by
  have hw : slice data (cs : Int) (data.length : Int) = some (data.drop cs) := by
    rw [slice_nat data cs data.length (by omega) (le_refl _), List.take_length]
  have e1 : (r : Int) + cs = ((cs + r : Nat) : Int) := by push_cast; omega
  have hu : slice data (cs : Int) ((r : Int) + cs)
      = some ((data.take (cs + r)).drop cs) := by
    rw [e1, slice_nat data cs (cs + r) (by omega) hle]
  have hge := LastIndex_ge ((data.take (cs + r)).drop cs) NL
  have hlt := LastIndex_lt ((data.take (cs + r)).drop cs) NL
  rw [List.length_drop, List.length_take] at hlt
  have hs : slice data (cs : Int) (LastIndex ((data.take (cs + r)).drop cs) NL + 1 + cs)
      = some ((data.take
          (LastIndex ((data.take (cs + r)).drop cs) NL + 1 + cs).toNat).drop cs) := by
    rw [slice_of_le (by omega) (by omega) (by omega)]
    simp
  have hl : slice data (LastIndex ((data.take (cs + r)).drop cs) NL + 1 + cs)
      ((r : Int) + cs)
      = some ((data.take (cs + r)).drop
          (LastIndex ((data.take (cs + r)).drop cs) NL + 1 + cs).toNat) := by
    rw [slice_of_le (by omega) (by omega) (by omega)]
    have e2 : ((r : Int) + cs).toNat = cs + r := by omega
    rw [e2]
  unfold GetSnippets.body
  rw [hw]
  simp only [hm]
  rw [if_neg (by omega), hu]
  simp only
  rw [hs]
  simp only
  rw [if_neg (by omega), hl, countNL_eq_count]

/-- The loop body breaks when the matcher reports a negative number. -/
theorem body_of_no_match {Syn : Type} (data : List UInt8) (re : CompiledRegexp Syn)
    (cs : Nat) (lineNo : Int) (hcs : cs ≤ data.length)
    (hm : re.Match (data.drop cs) true true < 0) :
    GetSnippets.body data re cs lineNo = .brk := by
  have hw : slice data (cs : Int) (data.length : Int) = some (data.drop cs) := by
    rw [slice_nat data cs data.length hcs (le_refl _), List.take_length]
  unfold GetSnippets.body
  rw [hw]
  simp only
  rw [if_pos (by omega)]

theorem loop_cont {Syn : Type} {data : List UInt8} {re : CompiledRegexp Syn} {n : Int}
    {s : List Snippet} {cs ln : Int} {it : Iter}
    (h1 : cs < (data.length : Int)) (h2 : ¬ (s.length : Int) ≥ n)
    (hb : GetSnippets.body data re cs ln = .cont it) :
    GetSnippets.loop data re n s cs ln =
      GetSnippets.loop data re n (s ++ [it.snip]) it.lineEnd it.lineNo := by
  rw [GetSnippets.loop, if_pos h1, dif_neg h2, hb]

theorem loop_brk {Syn : Type} {data : List UInt8} {re : CompiledRegexp Syn} {n : Int}
    {s : List Snippet} {cs ln : Int}
    (h1 : cs < (data.length : Int)) (h2 : ¬ (s.length : Int) ≥ n)
    (hb : GetSnippets.body data re cs ln = .brk) :
    GetSnippets.loop data re n s cs ln = some s := by
  rw [GetSnippets.loop, if_pos h1, dif_neg h2, hb]

theorem loop_end {Syn : Type} {data : List UInt8} {re : CompiledRegexp Syn} {n : Int}
    {s : List Snippet} {cs ln : Int} (h1 : ¬ cs < (data.length : Int)) :
    GetSnippets.loop data re n s cs ln = some s := by
  rw [GetSnippets.loop, if_neg h1]

/-- The snippets of `"foo\nbar\nfoobar\n"` for the compiled pattern `"foo"`. -/
theorem GetSnippets_fooFile_line (fold : Bool) :
    GetSnippets fooFile (reFooLine fold) 5 = some [⟨fooBytes, 1⟩, ⟨foobarBytes, 3⟩] := by
  have hm1 : (reFooLine fold).Match (fooFile.drop 0) true true = ((3 : Nat) : Int) := by
    cases fold <;> decide
  have hm2 : (reFooLine fold).Match (fooFile.drop 3) true true = ((11 : Nat) : Int) := by
    cases fold <;> decide
  have hm3 : (reFooLine fold).Match (fooFile.drop 14) true true < 0 := by
    cases fold <;> decide
  have hb1 : GetSnippets.body fooFile (reFooLine fold) 0 1
      = .cont ⟨0, 3, 0, 3, 1, ⟨fooBytes, 1⟩⟩ :=
    (body_of_match fooFile (reFooLine fold) 0 3 1 hm1 (by decide)).trans (by decide)
  have hb2 : GetSnippets.body fooFile (reFooLine fold) 3 1
      = .cont ⟨3, 14, 8, 14, 3, ⟨foobarBytes, 3⟩⟩ :=
    (body_of_match fooFile (reFooLine fold) 3 11 1 hm2 (by decide)).trans (by decide)
  have hb3 : GetSnippets.body fooFile (reFooLine fold) 14 3 = .brk :=
    body_of_no_match fooFile (reFooLine fold) 14 3 (by decide) hm3
  rw [GetSnippets, loop_cont (by decide) (by decide) hb1]
  rw [loop_cont (by decide) (by decide) hb2]
  exact loop_brk (by decide) (by decide) hb3

/-- The byte at the position `LastIndex b c` is `c`. -/
theorem LastIndex_getElem (b : List UInt8) (c : UInt8) (h : 0 ≤ LastIndex b c) :
    b[(LastIndex b c).toNat]? = some c := by
  induction b with
  | nil => simp [LastIndex] at h
  | cons x xs ih =>
    have hge := LastIndex_ge xs c
    simp only [LastIndex] at h ⊢
    split
    · rename_i hr
      have e : (LastIndex xs c + 1).toNat = (LastIndex xs c).toNat + 1 := by omega
      rw [e, List.getElem?_cons_succ]
      exact ih hr
    · rename_i hr
      split
      · rename_i hx
        subst hx
        simp
      · rename_i hx
        rw [if_neg hr, if_neg hx] at h
        omega

/-- A snippet starts at the search cursor or just after a newline byte. -/
theorem body_cont_lineStart {Syn : Type} {data : List UInt8} {re : CompiledRegexp Syn}
    {chunkStart lineNo : Int} {it : Iter}
    (h : GetSnippets.body data re chunkStart lineNo = .cont it) :
    it.lineStart = chunkStart ∨
      (0 < it.lineStart ∧ data[(it.lineStart - 1).toNat]? = some NL) := by
  obtain ⟨_, h0, _, h1, h2, h3, _, hls, _, _⟩ := body_cont h
  have hge := LastIndex_ge ((data.take it.mIdx.toNat).drop chunkStart.toNat) NL
  have hlt := LastIndex_lt ((data.take it.mIdx.toNat).drop chunkStart.toNat) NL
  rw [List.length_drop, List.length_take] at hlt
  by_cases hneg : LastIndex ((data.take it.mIdx.toNat).drop chunkStart.toNat) NL < 0
  · left; omega
  · right
    have hpos : 0 ≤ LastIndex ((data.take it.mIdx.toNat).drop chunkStart.toNat) NL := by
      omega
    have hget := LastIndex_getElem _ NL hpos
    rw [List.getElem?_drop, List.getElem?_take_of_lt (by omega)] at hget
    have e : (it.lineStart - 1).toNat = chunkStart.toNat +
        (LastIndex ((data.take it.mIdx.toNat).drop chunkStart.toNat) NL).toNat := by omega
    exact ⟨by omega, by rw [e]; exact hget⟩

theorem MatchInWindow.inRange {Syn : Type} {re : CompiledRegexp Syn} {data : List UInt8}
    (h : MatchInWindow re data) : MatchInRange re data := by
  intro k hk
  rcases h k hk with h1 | h1
  · left; omega
  · right; exact h1

/-- Under the precondition on the matcher no slice expression of the loop body
is out of range. -/
theorem body_ne_oob_of_range {Syn : Type} {data : List UInt8} {re : CompiledRegexp Syn}
    (hre : MatchInRange re data) {chunkStart : Int} (lineNo : Int)
    (h0 : 0 ≤ chunkStart) (h1 : chunkStart < (data.length : Int)) :
    GetSnippets.body data re chunkStart lineNo ≠ .oob := by
  have hk : chunkStart.toNat < data.length := by omega
  have hc := hre chunkStart.toNat hk
  rw [List.length_drop] at hc
  have ecs : chunkStart = ((chunkStart.toNat : Nat) : Int) := by omega
  rcases hc with hc | ⟨hc0, hc1⟩
  · rw [ecs, body_of_no_match data re chunkStart.toNat lineNo (by omega) hc]
    simp
  · have er : re.Match (data.drop chunkStart.toNat) true true
        = (((re.Match (data.drop chunkStart.toNat) true true).toNat : Nat) : Int) := by
      omega
    rw [ecs, body_of_match data re chunkStart.toNat _ lineNo er (by omega)]
    simp

/-- Under the precondition on the matcher the loop returns. -/
theorem traceLoop_returns_of_range {Syn : Type} (data : List UInt8)
    (re : CompiledRegexp Syn) (hre : MatchInRange re data) (nSnippets : Int)
    (s : List Iter) (chunkStart lineNo : Int) :
    0 ≤ chunkStart →
      ∃ r, GetSnippets.traceLoop data re nSnippets s chunkStart lineNo = some r := by
  induction s, chunkStart, lineNo using GetSnippets.traceLoop.induct data re nSnippets with
  | case1 s cs ln h1 h2 =>
    intro _
    rw [GetSnippets.traceLoop]
    simp [h1, h2]
  | case2 s cs ln h1 h2 hb =>
    intro _
    rw [GetSnippets.traceLoop]
    simp [h1, h2, hb]
  | case3 s cs ln h1 h2 hb =>
    intro h0
    exact absurd hb (body_ne_oob_of_range hre ln h0 h1)
  | case4 s cs ln h1 h2 a hb ih =>
    intro h0
    obtain ⟨_, _, _, hs, hl, _, he, _⟩ := body_cont hb
    obtain ⟨r, hr⟩ := ih (by omega)
    refine ⟨r, ?_⟩
    rw [GetSnippets.traceLoop]
    simp only [h1, h2, hb, ↓reduceIte, ↓reduceDIte]
    exact hr
  | case5 s cs ln h1 =>
    intro _
    rw [GetSnippets.traceLoop]
    simp [h1]

theorem trace_returns_of_range {Syn : Type} (data : List UInt8) (re : CompiledRegexp Syn)
    (hre : MatchInRange re data) (nSnippets : Int) :
    ∃ tr, GetSnippets.trace data re nSnippets = some tr :=
  traceLoop_returns_of_range data re hre nSnippets [] 0 1 (le_refl 0)

/-- The offsets of a run of iterations: the first window starts at the cursor,
each later one where the snippet before it ended, and the cursor never moves
back. -/
theorem IterChain_ranges {Syn : Type} {data : List UInt8} {re : CompiledRegexp Syn} :
    ∀ (t : List Iter) (chunkStart lineNo : Int),
      IterChain data re chunkStart lineNo t →
      (∀ it ∈ t.head?, it.chunkStart = chunkStart) ∧
      List.Chain' (fun a b : Iter => b.chunkStart = a.lineEnd) t ∧
      (∀ it ∈ t, chunkStart ≤ it.chunkStart ∧ it.chunkStart ≤ it.lineStart ∧
        it.lineStart ≤ it.lineEnd ∧ it.lineEnd ≤ (data.length : Int)) ∧
      List.Pairwise (fun a b : Iter => a.lineEnd ≤ b.chunkStart) t := by
  intro t
  induction t with
  | nil =>
    intro _ _ _
    exact ⟨by simp, List.chain'_nil, by simp, List.Pairwise.nil⟩
  | cons a rest ih =>
    intro cs ln hchain
    obtain ⟨hb, hrest⟩ := hchain
    obtain ⟨hcs, h0, _, h1, h2, h3, he, _, _, _⟩ := body_cont hb
    obtain ⟨ihhead, ihchain, ihall, ihpair⟩ := ih a.lineEnd a.lineNo hrest
    refine ⟨?_, ?_, ?_, ?_⟩
    · intro it hit
      simp only [List.head?_cons, Option.mem_def, Option.some.injEq] at hit
      subst hit
      exact hcs
    · exact List.chain'_cons'.2 ⟨ihhead, ihchain⟩
    · intro it hit
      rcases List.mem_cons.1 hit with rfl | hmem
      · exact ⟨by omega, by omega, by omega, by omega⟩
      · obtain ⟨g1, g2, g3, g4⟩ := ihall it hmem
        exact ⟨by omega, g2, g3, g4⟩
    · exact List.pairwise_cons.2 ⟨fun b hb => (ihall b hb).1, ihpair⟩

/-- The loop body is entered at most once more than the snippets still allowed,
and the matcher is called at most as often as snippets are still allowed. -/
theorem stepsLoop_le {Syn : Type} (data : List UInt8) (re : CompiledRegexp Syn)
    (nSnippets : Int) (s : List Snippet) (chunkStart lineNo : Int) :
    (GetSnippets.stepsLoop data re nSnippets s chunkStart lineNo).1
        ≤ (nSnippets - s.length).toNat + 1 ∧
    (GetSnippets.stepsLoop data re nSnippets s chunkStart lineNo).2
        ≤ (nSnippets - s.length).toNat := by
  induction s, chunkStart, lineNo using GetSnippets.stepsLoop.induct data re nSnippets with
  | case1 s cs ln h1 h2 =>
    rw [GetSnippets.stepsLoop]
    simp [h1, h2]
  | case2 s cs ln h1 h2 hb =>
    rw [GetSnippets.stepsLoop]
    simp only [h1, h2, hb, ↓reduceIte, ↓reduceDIte]
    constructor <;> omega
  | case3 s cs ln h1 h2 hb =>
    rw [GetSnippets.stepsLoop]
    simp only [h1, h2, hb, ↓reduceIte, ↓reduceDIte]
    constructor <;> omega
  | case4 s cs ln h1 h2 a hb ih =>
    rw [GetSnippets.stepsLoop]
    simp only [h1, h2, hb, ↓reduceIte, ↓reduceDIte]
    simp only [List.length_append, List.length_singleton, Nat.cast_add, Nat.cast_one] at ih
    constructor <;> omega
  | case5 s cs ln h1 =>
    rw [GetSnippets.stepsLoop]
    simp [h1]

/-- The matcher is called once for every snippet returned, and at most once
more. -/
theorem stepsLoop_vs_loop {Syn : Type} (data : List UInt8) (re : CompiledRegexp Syn)
    (nSnippets : Int) (s : List Snippet) (chunkStart lineNo : Int) :
    ∀ r, GetSnippets.loop data re nSnippets s chunkStart lineNo = some r →
      r.length ≤ s.length + (GetSnippets.stepsLoop data re nSnippets s chunkStart lineNo).2 ∧
      s.length + (GetSnippets.stepsLoop data re nSnippets s chunkStart lineNo).2
        ≤ r.length + 1 := by
  induction s, chunkStart, lineNo using GetSnippets.loop.induct data re nSnippets with
  | case1 s cs ln h1 h2 =>
    intro r hr
    rw [GetSnippets.loop] at hr
    simp only [h1, h2, ↓reduceIte, ↓reduceDIte, Option.some.injEq] at hr
    subst hr
    rw [GetSnippets.stepsLoop]
    simp [h1, h2]
  | case2 s cs ln h1 h2 hb =>
    intro r hr
    rw [GetSnippets.loop] at hr
    simp only [h1, h2, hb, ↓reduceIte, ↓reduceDIte, Option.some.injEq] at hr
    subst hr
    rw [GetSnippets.stepsLoop]
    simp [h1, h2, hb]
  | case3 s cs ln h1 h2 hb =>
    intro r hr
    rw [GetSnippets.loop] at hr
    simp [h1, h2, hb] at hr
  | case4 s cs ln h1 h2 a hb ih =>
    intro r hr
    rw [GetSnippets.loop] at hr
    simp only [h1, h2, hb, ↓reduceIte, ↓reduceDIte] at hr
    have := ih r hr
    simp only [List.length_append, List.length_singleton] at this
    rw [GetSnippets.stepsLoop]
    simp only [h1, h2, hb, ↓reduceIte, ↓reduceDIte]
    constructor <;> omega
  | case5 s cs ln h1 =>
    intro r hr
    rw [GetSnippets.loop] at hr
    simp only [h1, ↓reduceIte, Option.some.injEq] at hr
    subst hr
    rw [GetSnippets.stepsLoop]
    simp [h1]

/-- Every iteration of a run is what the loop body yields from some cursor and
line counter. -/
theorem IterChain_mem_body {Syn : Type} {data : List UInt8} {re : CompiledRegexp Syn} :
    ∀ (t : List Iter) (chunkStart lineNo : Int),
      IterChain data re chunkStart lineNo t →
      ∀ it ∈ t, ∃ cs ln, GetSnippets.body data re cs ln = .cont it := by
  intro t
  induction t with
  | nil => intro _ _ _ it hit; simp at hit
  | cons a rest ih =>
    intro cs ln hchain it hit
    obtain ⟨hb, hrest⟩ := hchain
    rcases List.mem_cons.1 hit with rfl | hmem
    · exact ⟨cs, ln, hb⟩
    · exact ih a.lineEnd a.lineNo hrest it hmem

theorem literalAt_length (fold : Bool) :
    ∀ (pat w : List UInt8), literalAt fold pat w = true → pat.length ≤ w.length := by
  intro pat
  induction pat with
  | nil => intro w _; simp
  | cons p ps ih =>
    intro w h
    cases w with
    | nil => simp [literalAt] at h
    | cons c cs =>
      simp only [literalAt, Bool.and_eq_true] at h
      have := ih cs h.2
      simp only [List.length_cons]
      omega

theorem leftmostMatchEnd_range (fold : Bool) (pat : List UInt8) :
    ∀ w : List UInt8, leftmostMatchEnd fold pat w = -1 ∨
      (0 ≤ leftmostMatchEnd fold pat w ∧ leftmostMatchEnd fold pat w ≤ (w.length : Int)) := by
  intro w
  induction w with
  | nil =>
    simp only [leftmostMatchEnd]
    split
    · rename_i h
      have := literalAt_length fold pat [] h
      right
      exact ⟨Int.natCast_nonneg _, by omega⟩
    · left; rfl
  | cons c cs ih =>
    simp only [leftmostMatchEnd]
    split
    · rename_i h
      have := literalAt_length fold pat (c :: cs) h
      right
      exact ⟨Int.natCast_nonneg _, by omega⟩
    · split
      · left; rfl
      · right
        simp only [List.length_cons]
        push_cast
        rcases ih with h1 | ⟨h1, h2⟩ <;> constructor <;> omega

theorem lineMatchEnd_range (fold : Bool) (pat : List UInt8) (w : List UInt8) :
    lineMatchEnd fold pat w = -1 ∨
      (0 ≤ lineMatchEnd fold pat w ∧ lineMatchEnd fold pat w ≤ (w.length : Int)) := by
  have he := leftmostMatchEnd_range fold pat w
  have hi1 := IndexByte_ge (w.drop (leftmostMatchEnd fold pat w).toNat) NL
  have hi2 := IndexByte_lt (w.drop (leftmostMatchEnd fold pat w).toNat) NL
  rw [List.length_drop] at hi2
  simp only [lineMatchEnd]
  split
  · left; rfl
  · right
    split
    · exact ⟨Int.natCast_nonneg _, le_refl _⟩
    · constructor <;> omega

/-- The compiled pattern `"foo"` reports offsets within every window. -/
theorem reFooLine_inWindow (fold : Bool) (data : List UInt8) :
    MatchInWindow (reFooLine fold) data := by
  intro k _
  exact lineMatchEnd_range fold fooBytes (data.drop k)

/-- The matcher `reEveryLine` reports offsets within every window. -/
theorem reEveryLine_inWindow (data : List UInt8) : MatchInWindow reEveryLine data := by
  intro k _
  have h1 := IndexByte_ge (data.drop k) NL
  have h2 := IndexByte_lt (data.drop k) NL
  right
  simp only [reEveryLine]
  split
  · exact ⟨Int.natCast_nonneg _, le_refl _⟩
  · constructor <;> omega

theorem trace_cont {Syn : Type} {data : List UInt8} {re : CompiledRegexp Syn} {n : Int}
    {s : List Iter} {cs ln : Int} {it : Iter}
    (h1 : cs < (data.length : Int)) (h2 : ¬ (s.length : Int) ≥ n)
    (hb : GetSnippets.body data re cs ln = .cont it) :
    GetSnippets.traceLoop data re n s cs ln =
      GetSnippets.traceLoop data re n (s ++ [it]) it.lineEnd it.lineNo := by
  rw [GetSnippets.traceLoop, if_pos h1, dif_neg h2, hb]

theorem trace_end {Syn : Type} {data : List UInt8} {re : CompiledRegexp Syn} {n : Int}
    {s : List Iter} {cs ln : Int} (h1 : ¬ cs < (data.length : Int)) :
    GetSnippets.traceLoop data re n s cs ln = some s := by
  rw [GetSnippets.traceLoop, if_neg h1]

theorem trace_cap {Syn : Type} {data : List UInt8} {re : CompiledRegexp Syn} {n : Int}
    {s : List Iter} {cs ln : Int}
    (h1 : cs < (data.length : Int)) (h2 : (s.length : Int) ≥ n) :
    GetSnippets.traceLoop data re n s cs ln = some s := by
  rw [GetSnippets.traceLoop, if_pos h1, dif_pos h2]

/-- The five iterations on `"foo\n"` for a pattern that matches the empty string:
the first snippet is the line `"foo"`, and from then on the cursor stays at
offset 3, before the newline. -/
theorem trace_fooLine :
    GetSnippets.trace fooLine reEveryLine 5 =
      some [⟨0, 3, 0, 3, 1, ⟨fooBytes, 1⟩⟩, ⟨3, 3, 3, 3, 1, ⟨[], 1⟩⟩,
        ⟨3, 3, 3, 3, 1, ⟨[], 1⟩⟩, ⟨3, 3, 3, 3, 1, ⟨[], 1⟩⟩, ⟨3, 3, 3, 3, 1, ⟨[], 1⟩⟩] := by
  have hm1 : reEveryLine.Match (fooLine.drop 0) true true = ((3 : Nat) : Int) := by decide
  have hm2 : reEveryLine.Match (fooLine.drop 3) true true = ((0 : Nat) : Int) := by decide
  have hb1 : GetSnippets.body fooLine reEveryLine 0 1
      = .cont ⟨0, 3, 0, 3, 1, ⟨fooBytes, 1⟩⟩ :=
    (body_of_match fooLine reEveryLine 0 3 1 hm1 (by decide)).trans (by decide)
  have hb2 : GetSnippets.body fooLine reEveryLine 3 1
      = .cont ⟨3, 3, 3, 3, 1, ⟨[], 1⟩⟩ :=
    (body_of_match fooLine reEveryLine 3 0 1 hm2 (by decide)).trans (by decide)
  rw [GetSnippets.trace, trace_cont (by decide) (by decide) hb1]
  rw [trace_cont (by decide) (by decide) hb2]
  rw [trace_cont (by decide) (by decide) hb2]
  rw [trace_cont (by decide) (by decide) hb2]
  rw [trace_cont (by decide) (by decide) hb2]
  exact trace_cap (by decide) (by decide)

/-- The reply of `Search` on the one-file index of `fooEnv`, from what
`Regexp.Compile` and `GetSnippets` give. -/
theorem Search_fooEnv (flag : Bool) (snippets : List Snippet) (hne : snippets ≠ [])
    (hs : GetSnippets fooFile (reFooLine flag) 5 = some snippets) :
    Search fooEnv ⟨some ⟨"foo", flag⟩⟩ =
      ([.regexpCompile (if flag then "(?i)foo" else "foo"), .RegexpQuery (),
          .PostingQuery (), .Name 0, .Decorations "a.go"],
        .ok ⟨[⟨"a.go", snippets⟩]⟩) := by
  have e0 : ("(?i)" ++ "foo" : String) = "(?i)foo" := by decide
  have hc : Regexp.Compile fooEnv ⟨"foo", flag⟩ =
      ([.regexpCompile (if flag then "(?i)foo" else "foo")], .ok (reFooLine flag)) := by
    cases flag <;> simp [Regexp.Compile, fooEnv, e0]
  have hd : fooEnv.Decorations (fooEnv.Name 0) = .ok fooFile := rfl
  have hids : fooEnv.PostingQuery (fooEnv.RegexpQuery (reFooLine flag).Syntax) = [0] := rfl
  have hname : fooEnv.Name 0 = "a.go" := rfl
  rw [Search_of_compiled _ _ (reFooLine flag) (by rw [hc]), hids,
    Search_loop_cons_ok _ (reFooLine flag) 0 [] ⟨[]⟩ fooFile snippets hd hs, hc]
  simp only [Search.loop, candidateCalls, hname, if_neg hne]
  simp [fooEnv]

/-! ## The claims -/

/-- C1: for every content, every matcher and every cap `n ≥ 0`, what
`GetSnippets(content, matcher, n)` returns has at most `n` snippets (and it does
return when the matcher reports offsets within the searched window); every
`Match` of a reply of `Search` holds between 1 and 5 snippets. -/
theorem C1_snippet_cap {Syn Query : Type} (env : Env Syn Query) (req : CodeSearchRequest)
    (data : List UInt8) (re : CompiledRegexp Syn) (n : Int) (hn : 0 ≤ n) :
    (∀ s, GetSnippets data re n = some s → (s.length : Int) ≤ n) ∧
    (MatchInWindow re data →
      ∃ s, GetSnippets data re n = some s ∧ (s.length : Int) ≤ n) ∧
    (∀ reply, (Search env req).2 = .ok reply →
      ∀ m ∈ reply.Match, 1 ≤ m.Snippet.length ∧ m.Snippet.length ≤ 5) := by
  have hcap : ∀ s, GetSnippets data re n = some s → (s.length : Int) ≤ n := by
    intro s hs
    have := GetSnippets_length_le hs
    rwa [max_eq_right hn] at this
  refine ⟨hcap, ?_, ?_⟩
  · intro hre
    obtain ⟨s, hs⟩ := GetSnippets_returns data re hre n
    exact ⟨s, hs, hcap s hs⟩
  · intro reply hreply
    obtain ⟨rx⟩ := req
    cases rx with
    | none => simp [Search] at hreply
    | some r =>
      cases hc : (Regexp.Compile env r).2 with
      | error err =>
        rw [Search_of_compile_error env r err hc] at hreply
        simp at hreply
      | ok rc =>
        rw [Search_of_compiled env r rc hc] at hreply
        exact Search_loop_snippet_count env rc _ ⟨[]⟩ reply hreply (by simp)

/-- Witness of C1: the cap 5 on the content `"a\nb"`. -/
theorem C1_snippet_cap_witness :
    (0 : Int) ≤ 5 ∧
    ((∀ s, GetSnippets [97, 10, 98] reEnd 5 = some s → (s.length : Int) ≤ 5) ∧
    (MatchInWindow reEnd [97, 10, 98] →
      ∃ s, GetSnippets [97, 10, 98] reEnd 5 = some s ∧ (s.length : Int) ≤ 5) ∧
    (∀ reply,
      (Search (sampleEnv reEnd [("a.go", .ok [97, 10, 98])]) ⟨some ⟨"b", false⟩⟩).2
        = .ok reply →
      ∀ m ∈ reply.Match, 1 ≤ m.Snippet.length ∧ m.Snippet.length ≤ 5)) :=
  ⟨by decide,
    C1_snippet_cap (sampleEnv reEnd [("a.go", .ok [97, 10, 98])]) ⟨some ⟨"b", false⟩⟩
      [97, 10, 98] reEnd 5 (by decide)⟩

/-- C2 (as the code behaves): for a content with fewer than 2^31 - 1 newlines and
a matcher whose reported end offset is -1 or lies within the searched window,
`GetSnippets` returns, and each snippet it returns is the text
`content[lineStart:matchEnd]` of an iteration whose `matchEnd` is the reported
match end, with a line number equal to 1 plus the number of newlines of the
content before `lineStart`, which is also 1 plus the number before `matchEnd`. -/
theorem C2_line_number_is_physical_line {Syn : Type} (data : List UInt8)
    (re : CompiledRegexp Syn) (n : Int)
    (hnl : (data.count NL : Int) + 1 < 2 ^ 31) (hre : MatchInWindow re data) :
    ∃ tr, GetSnippets.trace data re n = some tr ∧
      GetSnippets data re n = some (tr.map Iter.snip) ∧
      ∀ it ∈ tr,
        it.mIdx = re.Match (data.drop it.chunkStart.toNat) true true + it.chunkStart ∧
        0 ≤ it.lineStart ∧ it.lineStart ≤ it.mIdx ∧ it.mIdx ≤ (data.length : Int) ∧
        it.snip.Content = (data.take it.mIdx.toNat).drop it.lineStart.toNat ∧
        it.snip.LineNumber = 1 + ((data.take it.lineStart.toNat).count NL : Int) ∧
        it.snip.LineNumber = 1 + ((data.take it.mIdx.toNat).count NL : Int) := by
  obtain ⟨tr, htr⟩ := trace_returns data re hre n
  refine ⟨tr, htr, by rw [GetSnippets_eq_trace, htr]; rfl, ?_⟩
  intro it hit
  obtain ⟨hb1, hb2⟩ := trace_lineNo_bounds htr it hit
  obtain ⟨h1, h2, h3, h4, h5, h6, h7, h8⟩ :=
    IterChain_forall tr 0 1 (trace_spec htr).1 (by simp) it hit
  have hi : int32 it.lineNo = it.lineNo := int32_of_range _ (by omega) (by omega)
  rw [h8]
  simp only [hi]
  exact ⟨h3, by omega, h6, h7, trivial, h1, h2⟩

/-- Witness of C2: the content `"a\nb"`. -/
theorem C2_line_number_is_physical_line_witness :
    (((([97, 10, 98] : List UInt8).count NL : Nat) : Int) + 1 < 2 ^ 31 ∧
      MatchInWindow reEnd [97, 10, 98]) ∧
    ∃ tr, GetSnippets.trace [97, 10, 98] reEnd 5 = some tr ∧
      GetSnippets [97, 10, 98] reEnd 5 = some (tr.map Iter.snip) ∧
      ∀ it ∈ tr,
        it.mIdx = reEnd.Match (([97, 10, 98] : List UInt8).drop it.chunkStart.toNat)
          true true + it.chunkStart ∧
        0 ≤ it.lineStart ∧ it.lineStart ≤ it.mIdx ∧
        it.mIdx ≤ ((([97, 10, 98] : List UInt8).length : Nat) : Int) ∧
        it.snip.Content =
          (([97, 10, 98] : List UInt8).take it.mIdx.toNat).drop it.lineStart.toNat ∧
        it.snip.LineNumber =
          1 + (((([97, 10, 98] : List UInt8).take it.lineStart.toNat).count NL : Nat) : Int) ∧
        it.snip.LineNumber =
          1 + (((([97, 10, 98] : List UInt8).take it.mIdx.toNat).count NL : Nat) : Int) :=
  have h1 : ((([97, 10, 98] : List UInt8).count NL : Nat) : Int) + 1 < 2 ^ 31 := by decide
  ⟨⟨h1, reEnd_inWindow _⟩,
    C2_line_number_is_physical_line [97, 10, 98] reEnd 5 h1 (reEnd_inWindow _)⟩

/-- C2 (counterexample to the claim as stated): the content of 2^31 - 1 newline
bytes followed by `a` has fewer than 2^31 newlines, the matcher reports the end
of the window, which lies within it, and the one snippet, which starts at offset
2^31 - 1 after 2^31 - 1 newlines, on physical line 2^31, has the line number
-2^31. -/
theorem C2_counterexample :
    (((manyNewlines 2147483647).count NL : Nat) : Int) < 2 ^ 31 ∧
    MatchInWindow reEnd (manyNewlines 2147483647) ∧
    GetSnippets.trace (manyNewlines 2147483647) reEnd 1 =
      some [⟨0, 2147483648, 2147483647, 2147483648, 2147483648,
        ⟨[97], -2147483648⟩⟩] ∧
    GetSnippets (manyNewlines 2147483647) reEnd 1 = some [⟨[97], -2147483648⟩] ∧
    1 + ((((manyNewlines 2147483647).take 2147483647).count NL : Nat) : Int)
      = 2147483648 := by
  have ht := trace_manyNewlines 2147483647
  rw [int32_wraps] at ht
  have e1 : ((2147483647 : Nat) : Int) + 1 = 2147483648 := by decide
  have e2 : 1 + ((2147483647 : Nat) : Int) = 2147483648 := by decide
  have e3 : ((2147483647 : Nat) : Int) = 2147483647 := by decide
  rw [e1, e2, e3] at ht
  refine ⟨?_, reEnd_inWindow _, ht, ?_, ?_⟩
  · rw [count_manyNewlines]; decide
  · rw [GetSnippets_eq_trace, ht]; rfl
  · rw [take_manyNewlines, List.count_replicate_self]; decide

/-- C3 (as the code behaves): for a content with fewer than 2^31 - 1 newlines,
every matcher and every cap, the line numbers of the snippets `GetSnippets`
returns never decrease along the sequence and are all at least 1, the first one
in particular; and `GetSnippets` returns when the matcher reports offsets within
the window. -/
theorem C3_line_numbers_monotone {Syn : Type} (data : List UInt8)
    (re : CompiledRegexp Syn) (n : Int)
    (hnl : (data.count NL : Int) + 1 < 2 ^ 31) :
    (∀ s, GetSnippets data re n = some s →
      List.Pairwise (fun a b : Snippet => a.LineNumber ≤ b.LineNumber) s ∧
      (∀ x ∈ s.head?, 1 ≤ x.LineNumber) ∧
      (∀ x ∈ s, 1 ≤ x.LineNumber)) ∧
    (MatchInWindow re data → ∃ s, GetSnippets data re n = some s) := by
  refine ⟨?_, fun hre => GetSnippets_returns data re hre n⟩
  intro s hs
  obtain ⟨tr, htr, rfl⟩ := GetSnippets_some_iff_trace hs
  have hline : ∀ it ∈ tr, it.snip.LineNumber = it.lineNo ∧ 1 ≤ it.lineNo := by
    intro it hit
    obtain ⟨hb1, hb2⟩ := trace_lineNo_bounds htr it hit
    obtain ⟨_, _, _, _, _, _, _, h8⟩ :=
      IterChain_forall tr 0 1 (trace_spec htr).1 (by simp) it hit
    rw [h8]
    exact ⟨int32_of_range _ (by omega) (by omega), hb1⟩
  have hall : ∀ x ∈ tr.map Iter.snip, 1 ≤ x.LineNumber := by
    intro x hx
    obtain ⟨it, hit, rfl⟩ := List.mem_map.1 hx
    obtain ⟨e, h1⟩ := hline it hit
    rw [e]; exact h1
  refine ⟨?_, ?_, hall⟩
  · rw [List.pairwise_map]
    refine (IterChain_pairwise tr 0 1 (trace_spec htr).1).imp_of_mem ?_
    intro a b ha hb hab
    rw [(hline a ha).1, (hline b hb).1]
    exact hab
  · intro x hx
    exact hall x (List.mem_of_mem_head? hx)

/-- Witness of C3: the content `"a\nb"`. -/
theorem C3_line_numbers_monotone_witness :
    ((([97, 10, 98] : List UInt8).count NL : Nat) : Int) + 1 < 2 ^ 31 ∧
    ((∀ s, GetSnippets [97, 10, 98] reEnd 5 = some s →
      List.Pairwise (fun a b : Snippet => a.LineNumber ≤ b.LineNumber) s ∧
      (∀ x ∈ s.head?, 1 ≤ x.LineNumber) ∧
      (∀ x ∈ s, 1 ≤ x.LineNumber)) ∧
    (MatchInWindow reEnd [97, 10, 98] → ∃ s, GetSnippets [97, 10, 98] reEnd 5 = some s)) :=
  have h1 : ((([97, 10, 98] : List UInt8).count NL : Nat) : Int) + 1 < 2 ^ 31 := by decide
  ⟨h1, C3_line_numbers_monotone [97, 10, 98] reEnd 5 h1⟩

/-- C3 (counterexample to the claim as stated): on the content `"a"`, then
2^31 - 1 newline bytes, then `"a"`, with a matcher that reports the end of the
first line and then the end of the content, `GetSnippets` returns the line
numbers 1 and -2^31, which decrease. -/
theorem C3_counterexample :
    MatchInWindow (reLines 2147483647) (97 :: manyNewlines 2147483647) ∧
    GetSnippets (97 :: manyNewlines 2147483647) (reLines 2147483647) 2 =
      some [⟨[97], 1⟩, ⟨[97], -2147483648⟩] ∧
    (-2147483648 : Int) < 1 := by
  have h := GetSnippets_two_lines 2147483647
  rw [int32_wraps] at h
  exact ⟨reLines_inWindow _ _, h, by decide⟩

/-- C4 (the code at the failing input): for the pattern `"ABC"`, `Regexp.Compile`
hands the compiler `"ABC"` unchanged when `CaseSensitive` is false and
`"(?i)ABC"` when it is true, the reverse of what the claim states. -/
theorem C4_compile_case_flag {Syn Query : Type} (env : Env Syn Query) :
    Regexp.Compile env ⟨"ABC", false⟩ =
      ([.regexpCompile "ABC"], env.regexpCompile "ABC") ∧
    Regexp.Compile env ⟨"ABC", true⟩ =
      ([.regexpCompile "(?i)ABC"], env.regexpCompile "(?i)ABC") := by
  constructor
  · simp [Regexp.Compile]
  · have e : ("(?i)" ++ "ABC" : String) = "(?i)ABC" := by decide
    simp [Regexp.Compile, e]

/-- C5: for every request whose pattern specification is absent or whose
expression is the empty string, `Search` returns the missing-pattern error,
respectively the wrapped empty-pattern error of `Regexp.Compile` (which fails on
the empty expression whatever the case flag), and calls nothing: neither the
compiler, nor the index, nor the content service. -/
theorem C5_missing_or_empty_pattern {Syn Query : Type} (env : Env Syn Query)
    (req : CodeSearchRequest)
    (h : req.Regexp = none ∨ ∃ flag, req.Regexp = some ⟨"", flag⟩) :
    (∃ msg, Search env req = ([], .error msg)) ∧
    (req.Regexp = none → Search env req = ([], .error "No search regexp provided.")) ∧
    (∀ flag, req.Regexp = some ⟨"", flag⟩ →
      Regexp.Compile env ⟨"", flag⟩ = ([], .error "Empty search regexp provided.") ∧
      Search env req =
        ([], .error "Search regexp compilation error: Empty search regexp provided.")) := by
  have hnone : req.Regexp = none →
      Search env req = ([], .error "No search regexp provided.") := by
    intro h0
    simp [Search, h0]
  have hcompile : ∀ flag, Regexp.Compile env ⟨"", flag⟩ =
      ([], .error "Empty search regexp provided.") := by
    intro flag
    simp [Regexp.Compile]
  have hempty : ∀ flag, req.Regexp = some ⟨"", flag⟩ →
      Search env req =
        ([], .error "Search regexp compilation error: Empty search regexp provided.") := by
    intro flag h0
    have e : ("Search regexp compilation error: " ++ "Empty search regexp provided." : String)
        = "Search regexp compilation error: Empty search regexp provided." := by decide
    simp [Search, h0, hcompile flag, e]
  refine ⟨?_, hnone, fun flag h0 => ⟨hcompile flag, hempty flag h0⟩⟩
  rcases h with h0 | ⟨flag, h0⟩
  · exact ⟨_, hnone h0⟩
  · exact ⟨_, hempty flag h0⟩

/-- Witness of C5: a request without a pattern specification. -/
theorem C5_missing_or_empty_pattern_witness :
    ((⟨none⟩ : CodeSearchRequest).Regexp = none ∨
      ∃ flag, (⟨none⟩ : CodeSearchRequest).Regexp = some ⟨"", flag⟩) ∧
    ((∃ msg, Search (sampleEnv reEnd [("a.go", .ok [97])]) ⟨none⟩ = ([], .error msg)) ∧
    ((⟨none⟩ : CodeSearchRequest).Regexp = none →
      Search (sampleEnv reEnd [("a.go", .ok [97])]) ⟨none⟩
        = ([], .error "No search regexp provided.")) ∧
    (∀ flag, (⟨none⟩ : CodeSearchRequest).Regexp = some ⟨"", flag⟩ →
      Regexp.Compile (sampleEnv reEnd [("a.go", .ok [97])]) ⟨"", flag⟩
        = ([], .error "Empty search regexp provided.") ∧
      Search (sampleEnv reEnd [("a.go", .ok [97])]) ⟨none⟩ =
        ([], .error "Search regexp compilation error: Empty search regexp provided."))) :=
  ⟨Or.inl rfl, C5_missing_or_empty_pattern (sampleEnv reEnd [("a.go", .ok [97])]) ⟨none⟩
    (Or.inl rfl)⟩

/-- C6: when the expression that `Regexp.Compile` hands the underlying compiler
(the pattern, possibly prefixed) is rejected with `err`, `Regexp.Compile` returns
`err`, `Search` returns an error wrapping it and no reply, and the only call made
is the one to the compiler: neither the index nor the content service is called. -/
theorem C6_compile_error {Syn Query : Type} (env : Env Syn Query) (r : Regexp)
    (err : String) (hne : r.Expr ≠ "")
    (hrej : ∀ e, Call.regexpCompile e ∈ (Regexp.Compile env r).1 →
      env.regexpCompile e = .error err) :
    (Regexp.Compile env r).2 = .error err ∧
    (∃ e, (e = r.Expr ∨ e = "(?i)" ++ r.Expr) ∧
      (Search env ⟨some r⟩).1 = [.regexpCompile e]) ∧
    (Search env ⟨some r⟩).2 = .error ("Search regexp compilation error: " ++ err) ∧
    (∀ c ∈ (Search env ⟨some r⟩).1, c.isIndexOrContent = false) := by
  have hlog : (Regexp.Compile env r).1 =
      [.regexpCompile (if r.CaseSensitive then "(?i)" ++ r.Expr else r.Expr)] := by
    simp [Regexp.Compile, hne]
  have hres : (Regexp.Compile env r).2 =
      env.regexpCompile (if r.CaseSensitive then "(?i)" ++ r.Expr else r.Expr) := by
    simp [Regexp.Compile, hne]
  have hc : (Regexp.Compile env r).2 = .error err := by
    rw [hres]
    exact hrej _ (by rw [hlog]; exact List.mem_singleton.2 rfl)
  have hs := Search_of_compile_error env r err hc
  refine ⟨hc, ?_, by rw [hs], ?_⟩
  · refine ⟨if r.CaseSensitive then "(?i)" ++ r.Expr else r.Expr, ?_, by rw [hs, hlog]⟩
    by_cases hf : r.CaseSensitive = true
    · right; simp [hf]
    · left; simp [hf]
  · intro c hcm
    rw [hs, hlog] at hcm
    rw [List.mem_singleton.1 hcm]
    rfl

/-- Witness of C6: the unbalanced pattern `"("`. -/
theorem C6_compile_error_witness :
    (("(" : String) ≠ "" ∧
      ∀ e, Call.regexpCompile e ∈ (Regexp.Compile (sampleEnv reEnd []) ⟨"(", false⟩).1 →
        (sampleEnv reEnd []).regexpCompile e = .error "missing closing )") ∧
    ((Regexp.Compile (sampleEnv reEnd []) ⟨"(", false⟩).2 = .error "missing closing )" ∧
    (∃ e, (e = "(" ∨ e = "(?i)" ++ "(") ∧
      (Search (sampleEnv reEnd []) ⟨some ⟨"(", false⟩⟩).1 = [.regexpCompile e]) ∧
    (Search (sampleEnv reEnd []) ⟨some ⟨"(", false⟩⟩).2
      = .error ("Search regexp compilation error: " ++ "missing closing )") ∧
    (∀ c ∈ (Search (sampleEnv reEnd []) ⟨some ⟨"(", false⟩⟩).1,
      c.isIndexOrContent = false)) :=
  have h1 : ("(" : String) ≠ "" := by decide
  have h2 : ∀ e,
      Call.regexpCompile e ∈ (Regexp.Compile (sampleEnv reEnd []) ⟨"(", false⟩).1 →
        (sampleEnv reEnd []).regexpCompile e = .error "missing closing )" := by
    intro e he
    have hlog : (Regexp.Compile (sampleEnv reEnd []) ⟨"(", false⟩).1
        = [.regexpCompile "("] := by
      simp [Regexp.Compile]
    rw [hlog] at he
    have he2 : e = "(" := by simpa using he
    subst he2
    simp [sampleEnv]
  ⟨⟨h1, h2⟩, C6_compile_error (sampleEnv reEnd []) ⟨"(", false⟩ "missing closing )" h1 h2⟩

/-- C7: when the fetch of some candidate fails, `Search` produces no reply, it
fetches nothing after the first failing candidate, and (the matcher reporting
offsets within the window on the contents fetched before) it returns the error
of that fetch, having made exactly the calls of the candidates up to that one. -/
theorem C7_fetch_failure_aborts {Syn Query : Type} (env : Env Syn Query) (r : Regexp)
    (re : CompiledRegexp Syn) (hcomp : (Regexp.Compile env r).2 = .ok re)
    (hfail : ∃ id ∈ env.PostingQuery (env.RegexpQuery re.Syntax),
      ∃ err, env.Decorations (env.Name id) = .error err) :
    ∃ pre bad post err,
      env.PostingQuery (env.RegexpQuery re.Syntax) = pre ++ bad :: post ∧
      (∀ id ∈ pre, ∃ data, env.Decorations (env.Name id) = .ok data) ∧
      env.Decorations (env.Name bad) = .error err ∧
      (∀ reply, (Search env ⟨some r⟩).2 ≠ .ok reply) ∧
      (Search env ⟨some r⟩).1 <+:
        (Regexp.Compile env r).1 ++
          [.RegexpQuery re.Syntax, .PostingQuery (env.RegexpQuery re.Syntax)] ++
          (pre ++ [bad]).flatMap (candidateCalls env) ∧
      ((∀ id ∈ pre, ∀ data, env.Decorations (env.Name id) = .ok data →
          MatchInWindow re data) →
        Search env ⟨some r⟩ =
          ((Regexp.Compile env r).1 ++
            [.RegexpQuery re.Syntax, .PostingQuery (env.RegexpQuery re.Syntax)] ++
            (pre ++ [bad]).flatMap (candidateCalls env),
            .error (fetchError err))) := by
  obtain ⟨pre, bad, post, err, hsplit, hpre, hbad⟩ := first_failing_candidate env _ hfail
  refine ⟨pre, bad, post, err, hsplit, hpre, hbad, ?_⟩
  rw [Search_of_compiled env r re hcomp, hsplit]
  rcases Search_loop_fail env re bad post err hbad pre ⟨[]⟩ hpre
    with h1 | ⟨h1, h2, i, hi, d, hid, hin⟩
  · rw [h1]
    refine ⟨fun reply h => by simp at h, List.prefix_refl _, fun _ => rfl⟩
  · refine ⟨fun reply h => by rw [h1] at h; simp at h, ?_, ?_⟩
    · exact (List.prefix_append_right_inj _).2 h2
    · intro hwin
      obtain ⟨s, hs⟩ := GetSnippets_returns d re (hwin i hi d hid) 5
      rw [hs] at hin
      simp at hin

/-- Witness of C7: three candidates, the second of which cannot be fetched. -/
theorem C7_fetch_failure_aborts_witness :
    ((Regexp.Compile (sampleEnv reEnd filesOneUnreadable) ⟨"a", false⟩).2 = .ok reEnd ∧
      ∃ id ∈ (sampleEnv reEnd filesOneUnreadable).PostingQuery
          ((sampleEnv reEnd filesOneUnreadable).RegexpQuery reEnd.Syntax),
        ∃ err, (sampleEnv reEnd filesOneUnreadable).Decorations
          ((sampleEnv reEnd filesOneUnreadable).Name id) = .error err) ∧
    (∃ pre bad post err,
      (sampleEnv reEnd filesOneUnreadable).PostingQuery
          ((sampleEnv reEnd filesOneUnreadable).RegexpQuery reEnd.Syntax)
        = pre ++ bad :: post ∧
      (∀ id ∈ pre, ∃ data, (sampleEnv reEnd filesOneUnreadable).Decorations
          ((sampleEnv reEnd filesOneUnreadable).Name id) = .ok data) ∧
      (sampleEnv reEnd filesOneUnreadable).Decorations
          ((sampleEnv reEnd filesOneUnreadable).Name bad) = .error err ∧
      (∀ reply,
        (Search (sampleEnv reEnd filesOneUnreadable) ⟨some ⟨"a", false⟩⟩).2 ≠ .ok reply) ∧
      (Search (sampleEnv reEnd filesOneUnreadable) ⟨some ⟨"a", false⟩⟩).1 <+:
        (Regexp.Compile (sampleEnv reEnd filesOneUnreadable) ⟨"a", false⟩).1 ++
          [.RegexpQuery reEnd.Syntax,
            .PostingQuery ((sampleEnv reEnd filesOneUnreadable).RegexpQuery reEnd.Syntax)] ++
          (pre ++ [bad]).flatMap (candidateCalls (sampleEnv reEnd filesOneUnreadable)) ∧
      ((∀ id ∈ pre, ∀ data, (sampleEnv reEnd filesOneUnreadable).Decorations
          ((sampleEnv reEnd filesOneUnreadable).Name id) = .ok data →
          MatchInWindow reEnd data) →
        Search (sampleEnv reEnd filesOneUnreadable) ⟨some ⟨"a", false⟩⟩ =
          ((Regexp.Compile (sampleEnv reEnd filesOneUnreadable) ⟨"a", false⟩).1 ++
            [.RegexpQuery reEnd.Syntax,
              .PostingQuery
                ((sampleEnv reEnd filesOneUnreadable).RegexpQuery reEnd.Syntax)] ++
            (pre ++ [bad]).flatMap (candidateCalls (sampleEnv reEnd filesOneUnreadable)),
            .error (fetchError err)))) :=
  have h1 : (Regexp.Compile (sampleEnv reEnd filesOneUnreadable) ⟨"a", false⟩).2
      = .ok reEnd := by
    simp [Regexp.Compile, sampleEnv]
  have h2 : ∃ id ∈ (sampleEnv reEnd filesOneUnreadable).PostingQuery
        ((sampleEnv reEnd filesOneUnreadable).RegexpQuery reEnd.Syntax),
      ∃ err, (sampleEnv reEnd filesOneUnreadable).Decorations
        ((sampleEnv reEnd filesOneUnreadable).Name id) = .error err :=
    ⟨1, by decide, "unavailable", rfl⟩
  ⟨⟨h1, h2⟩, C7_fetch_failure_aborts (sampleEnv reEnd filesOneUnreadable) ⟨"a", false⟩
    reEnd h1 h2⟩

/-- C8: when compilation and every content fetch succeed, a reply of `Search` is
the candidate sequence of the index, in its order, restricted to the candidates
on which `GetSnippets(content, matcher, 5)` is not empty, each mapped to the
`Match` of its index-resolved name and of that `GetSnippets` result; and `Search`
does produce that reply, after the calls of every candidate, when the matcher
reports offsets within the window on every content. -/
theorem C8_reply_is_filtered_candidates {Syn Query : Type} (env : Env Syn Query)
    (r : Regexp) (re : CompiledRegexp Syn)
    (hcomp : (Regexp.Compile env r).2 = .ok re)
    (hfetch : ∀ id ∈ env.PostingQuery (env.RegexpQuery re.Syntax),
      ∃ data, env.Decorations (env.Name id) = .ok data) :
    (∀ reply, (Search env ⟨some r⟩).2 = .ok reply →
      reply = ⟨(env.PostingQuery (env.RegexpQuery re.Syntax)).filterMap
        (specMatch env re)⟩) ∧
    (∀ id data s, env.Decorations (env.Name id) = .ok data →
      GetSnippets data re 5 = some s →
      specMatch env re id = if s = [] then none else some ⟨env.Name id, s⟩) ∧
    ((∀ id ∈ env.PostingQuery (env.RegexpQuery re.Syntax),
        ∀ data, env.Decorations (env.Name id) = .ok data → MatchInWindow re data) →
      Search env ⟨some r⟩ =
        ((Regexp.Compile env r).1 ++
          [.RegexpQuery re.Syntax, .PostingQuery (env.RegexpQuery re.Syntax)] ++
          (env.PostingQuery (env.RegexpQuery re.Syntax)).flatMap (candidateCalls env),
        .ok ⟨(env.PostingQuery (env.RegexpQuery re.Syntax)).filterMap
          (specMatch env re)⟩)) := by
  refine ⟨?_, ?_, ?_⟩
  · intro reply h
    rw [Search_of_compiled env r re hcomp] at h
    have hall := Search_loop_ok_inv env re _ ⟨[]⟩ reply h
    rw [Search_loop_all_ok env re _ ⟨[]⟩ hall] at h
    simp only [List.nil_append, Outcome.ok.injEq] at h
    exact h.symm
  · intro id data s hd hs
    simp only [specMatch, hd, hs]
  · intro hwin
    have hall : ∀ id ∈ env.PostingQuery (env.RegexpQuery re.Syntax),
        ∃ data s, env.Decorations (env.Name id) = .ok data ∧
          GetSnippets data re 5 = some s := by
      intro id hid
      obtain ⟨data, hd⟩ := hfetch id hid
      obtain ⟨s, hs⟩ := GetSnippets_returns data re (hwin id hid data hd) 5
      exact ⟨data, s, hd, hs⟩
    rw [Search_of_compiled env r re hcomp, Search_loop_all_ok env re _ ⟨[]⟩ hall]
    simp

/-- Witness of C8: three readable candidates. -/
theorem C8_reply_is_filtered_candidates_witness :
    ((Regexp.Compile (sampleEnv reEnd filesReadable) ⟨"a", false⟩).2 = .ok reEnd ∧
      ∀ id ∈ (sampleEnv reEnd filesReadable).PostingQuery
          ((sampleEnv reEnd filesReadable).RegexpQuery reEnd.Syntax),
        ∃ data, (sampleEnv reEnd filesReadable).Decorations
          ((sampleEnv reEnd filesReadable).Name id) = .ok data) ∧
    ((∀ reply, (Search (sampleEnv reEnd filesReadable) ⟨some ⟨"a", false⟩⟩).2 = .ok reply →
      reply = ⟨((sampleEnv reEnd filesReadable).PostingQuery
        ((sampleEnv reEnd filesReadable).RegexpQuery reEnd.Syntax)).filterMap
          (specMatch (sampleEnv reEnd filesReadable) reEnd)⟩) ∧
    (∀ id data s, (sampleEnv reEnd filesReadable).Decorations
        ((sampleEnv reEnd filesReadable).Name id) = .ok data →
      GetSnippets data reEnd 5 = some s →
      specMatch (sampleEnv reEnd filesReadable) reEnd id =
        if s = [] then none else some ⟨(sampleEnv reEnd filesReadable).Name id, s⟩) ∧
    ((∀ id ∈ (sampleEnv reEnd filesReadable).PostingQuery
          ((sampleEnv reEnd filesReadable).RegexpQuery reEnd.Syntax),
        ∀ data, (sampleEnv reEnd filesReadable).Decorations
          ((sampleEnv reEnd filesReadable).Name id) = .ok data → MatchInWindow reEnd data) →
      Search (sampleEnv reEnd filesReadable) ⟨some ⟨"a", false⟩⟩ =
        ((Regexp.Compile (sampleEnv reEnd filesReadable) ⟨"a", false⟩).1 ++
          [.RegexpQuery reEnd.Syntax,
            .PostingQuery ((sampleEnv reEnd filesReadable).RegexpQuery reEnd.Syntax)] ++
          ((sampleEnv reEnd filesReadable).PostingQuery
            ((sampleEnv reEnd filesReadable).RegexpQuery reEnd.Syntax)).flatMap
              (candidateCalls (sampleEnv reEnd filesReadable)),
        .ok ⟨((sampleEnv reEnd filesReadable).PostingQuery
          ((sampleEnv reEnd filesReadable).RegexpQuery reEnd.Syntax)).filterMap
            (specMatch (sampleEnv reEnd filesReadable) reEnd)⟩))) :=
  have h1 : (Regexp.Compile (sampleEnv reEnd filesReadable) ⟨"a", false⟩).2
      = .ok reEnd := by
    simp [Regexp.Compile, sampleEnv]
  have h2 : ∀ id ∈ (sampleEnv reEnd filesReadable).PostingQuery
        ((sampleEnv reEnd filesReadable).RegexpQuery reEnd.Syntax),
      ∃ data, (sampleEnv reEnd filesReadable).Decorations
        ((sampleEnv reEnd filesReadable).Name id) = .ok data := by
    intro id hid
    have hid2 : id = 0 ∨ id = 1 ∨ id = 2 := by
      have : id ∈ [0, 1, 2] := hid
      simpa using this
    rcases hid2 with rfl | rfl | rfl
    · exact ⟨[97, 10, 98], rfl⟩
    · exact ⟨[], rfl⟩
    · exact ⟨[99], rfl⟩
  ⟨⟨h1, h2⟩, C8_reply_is_filtered_candidates (sampleEnv reEnd filesReadable) ⟨"a", false⟩
    reEnd h1 h2⟩

/-- C9: on a content on which the first search reports a negative offset,
`GetSnippets` returns the empty sequence, the candidate has no entry in the
reply, and when that is so for every candidate and every fetch succeeds,
`Search` succeeds with a reply of zero matches. -/
theorem C9_no_match {Syn Query : Type} (env : Env Syn Query) (r : Regexp)
    (re : CompiledRegexp Syn) (hcomp : (Regexp.Compile env r).2 = .ok re)
    (hnone : ∀ id ∈ env.PostingQuery (env.RegexpQuery re.Syntax),
      ∃ data, env.Decorations (env.Name id) = .ok data ∧ re.Match data true true < 0) :
    (∀ data n, re.Match data true true < 0 → GetSnippets data re n = some []) ∧
    (∀ id ∈ env.PostingQuery (env.RegexpQuery re.Syntax), specMatch env re id = none) ∧
    (Search env ⟨some r⟩).2 = .ok ⟨[]⟩ := by
  have hspec : ∀ id ∈ env.PostingQuery (env.RegexpQuery re.Syntax),
      specMatch env re id = none := by
    intro id hid
    obtain ⟨data, hd, hm⟩ := hnone id hid
    simp only [specMatch, hd, GetSnippets_no_match data re 5 hm, ↓reduceIte]
  have hall : ∀ id ∈ env.PostingQuery (env.RegexpQuery re.Syntax),
      ∃ data s, env.Decorations (env.Name id) = .ok data ∧
        GetSnippets data re 5 = some s := by
    intro id hid
    obtain ⟨data, hd, hm⟩ := hnone id hid
    exact ⟨data, [], hd, GetSnippets_no_match data re 5 hm⟩
  refine ⟨fun data n h => GetSnippets_no_match data re n h, hspec, ?_⟩
  rw [Search_of_compiled env r re hcomp, Search_loop_all_ok env re _ ⟨[]⟩ hall]
  have hnil : (env.PostingQuery (env.RegexpQuery re.Syntax)).filterMap (specMatch env re)
      = [] := by
    rw [List.filterMap_eq_nil_iff]
    exact hspec
  simp [hnil]

/-- Witness of C9: three readable candidates and a matcher that never matches. -/
theorem C9_no_match_witness :
    ((Regexp.Compile (sampleEnv reNone filesReadable) ⟨"zzz", false⟩).2 = .ok reNone ∧
      ∀ id ∈ (sampleEnv reNone filesReadable).PostingQuery
          ((sampleEnv reNone filesReadable).RegexpQuery reNone.Syntax),
        ∃ data, (sampleEnv reNone filesReadable).Decorations
          ((sampleEnv reNone filesReadable).Name id) = .ok data ∧
          reNone.Match data true true < 0) ∧
    ((∀ data n, reNone.Match data true true < 0 → GetSnippets data reNone n = some []) ∧
    (∀ id ∈ (sampleEnv reNone filesReadable).PostingQuery
        ((sampleEnv reNone filesReadable).RegexpQuery reNone.Syntax),
      specMatch (sampleEnv reNone filesReadable) reNone id = none) ∧
    (Search (sampleEnv reNone filesReadable) ⟨some ⟨"zzz", false⟩⟩).2 = .ok ⟨[]⟩) :=
  have h1 : (Regexp.Compile (sampleEnv reNone filesReadable) ⟨"zzz", false⟩).2
      = .ok reNone := by
    simp [Regexp.Compile, sampleEnv]
  have h2 : ∀ id ∈ (sampleEnv reNone filesReadable).PostingQuery
        ((sampleEnv reNone filesReadable).RegexpQuery reNone.Syntax),
      ∃ data, (sampleEnv reNone filesReadable).Decorations
        ((sampleEnv reNone filesReadable).Name id) = .ok data ∧
        reNone.Match data true true < 0 := by
    intro id hid
    have hid2 : id = 0 ∨ id = 1 ∨ id = 2 := by
      have : id ∈ [0, 1, 2] := hid
      simpa using this
    rcases hid2 with rfl | rfl | rfl
    · exact ⟨[97, 10, 98], rfl, by decide⟩
    · exact ⟨[], rfl, by decide⟩
    · exact ⟨[99], rfl, by decide⟩
  ⟨⟨h1, h2⟩, C9_no_match (sampleEnv reNone filesReadable) ⟨"zzz", false⟩ reNone h1 h2⟩

/-- C10 (as the code behaves): when the first search of a non-empty content
reports an empty match at the cursor (offset 0 of the window), the cursor never
moves and `GetSnippets` returns as many snippets as the cap allows, five for the
cap 5, each with empty content and line number 1; `Search`, when every fetch
succeeds, includes the file in the reply with those five snippets. -/
theorem C10_empty_matches_fill_cap {Syn Query : Type} (env : Env Syn Query) (r : Regexp)
    (re : CompiledRegexp Syn) (fileid : Nat) (data : List UInt8)
    (hcomp : (Regexp.Compile env r).2 = .ok re)
    (hfetch : ∀ id ∈ env.PostingQuery (env.RegexpQuery re.Syntax),
      ∃ d, env.Decorations (env.Name id) = .ok d ∧ MatchInWindow re d)
    (hid : fileid ∈ env.PostingQuery (env.RegexpQuery re.Syntax))
    (hdata : env.Decorations (env.Name fileid) = .ok data)
    (hne : data ≠ []) (hzero : re.Match data true true = 0) :
    (∀ n : Int, 0 ≤ n → GetSnippets data re n = some (List.replicate n.toNat ⟨[], 1⟩)) ∧
    GetSnippets data re 5 = some [⟨[], 1⟩, ⟨[], 1⟩, ⟨[], 1⟩, ⟨[], 1⟩, ⟨[], 1⟩] ∧
    ∃ reply, (Search env ⟨some r⟩).2 = .ok reply ∧
      ⟨env.Name fileid, [⟨[], 1⟩, ⟨[], 1⟩, ⟨[], 1⟩, ⟨[], 1⟩, ⟨[], 1⟩]⟩ ∈ reply.Match := by
  have h5 : GetSnippets data re 5 = some [⟨[], 1⟩, ⟨[], 1⟩, ⟨[], 1⟩, ⟨[], 1⟩, ⟨[], 1⟩] :=
    GetSnippets_of_empty_match data re hne hzero 5 (by decide)
  refine ⟨fun n hn => GetSnippets_of_empty_match data re hne hzero n hn, h5, ?_⟩
  have hall : ∀ id ∈ env.PostingQuery (env.RegexpQuery re.Syntax),
      ∃ data s, env.Decorations (env.Name id) = .ok data ∧
        GetSnippets data re 5 = some s := by
    intro id hi
    obtain ⟨d, hd, hw⟩ := hfetch id hi
    obtain ⟨s, hs⟩ := GetSnippets_returns d re hw 5
    exact ⟨d, s, hd, hs⟩
  rw [Search_of_compiled env r re hcomp, Search_loop_all_ok env re _ ⟨[]⟩ hall]
  refine ⟨_, rfl, ?_⟩
  simp only [List.nil_append, List.mem_filterMap]
  refine ⟨fileid, hid, ?_⟩
  simp [specMatch, hdata, h5]

/-- Witness of C10: the one-byte file `"a"` and a matcher of empty matches. -/
theorem C10_empty_matches_fill_cap_witness :
    ((Regexp.Compile (sampleEnv reZero filesSingle) ⟨"x*", false⟩).2 = .ok reZero ∧
      (∀ id ∈ (sampleEnv reZero filesSingle).PostingQuery
          ((sampleEnv reZero filesSingle).RegexpQuery reZero.Syntax),
        ∃ d, (sampleEnv reZero filesSingle).Decorations
          ((sampleEnv reZero filesSingle).Name id) = .ok d ∧ MatchInWindow reZero d) ∧
      0 ∈ (sampleEnv reZero filesSingle).PostingQuery
          ((sampleEnv reZero filesSingle).RegexpQuery reZero.Syntax) ∧
      (sampleEnv reZero filesSingle).Decorations ((sampleEnv reZero filesSingle).Name 0)
        = .ok [97] ∧
      ([97] : List UInt8) ≠ [] ∧ reZero.Match [97] true true = 0) ∧
    ((∀ n : Int, 0 ≤ n →
      GetSnippets [97] reZero n = some (List.replicate n.toNat ⟨[], 1⟩)) ∧
    GetSnippets [97] reZero 5 = some [⟨[], 1⟩, ⟨[], 1⟩, ⟨[], 1⟩, ⟨[], 1⟩, ⟨[], 1⟩] ∧
    ∃ reply, (Search (sampleEnv reZero filesSingle) ⟨some ⟨"x*", false⟩⟩).2 = .ok reply ∧
      ⟨(sampleEnv reZero filesSingle).Name 0,
        [⟨[], 1⟩, ⟨[], 1⟩, ⟨[], 1⟩, ⟨[], 1⟩, ⟨[], 1⟩]⟩ ∈ reply.Match) :=
  have h1 : (Regexp.Compile (sampleEnv reZero filesSingle) ⟨"x*", false⟩).2
      = .ok reZero := by
    simp [Regexp.Compile, sampleEnv]
  have h2 : ∀ id ∈ (sampleEnv reZero filesSingle).PostingQuery
        ((sampleEnv reZero filesSingle).RegexpQuery reZero.Syntax),
      ∃ d, (sampleEnv reZero filesSingle).Decorations
        ((sampleEnv reZero filesSingle).Name id) = .ok d ∧ MatchInWindow reZero d := by
    intro id hid
    have hid2 : id = 0 := by
      have : id ∈ [0] := hid
      simpa using this
    subst hid2
    exact ⟨[97], rfl, reZero_inWindow _⟩
  have h3 : 0 ∈ (sampleEnv reZero filesSingle).PostingQuery
      ((sampleEnv reZero filesSingle).RegexpQuery reZero.Syntax) := by decide
  have h4 : (sampleEnv reZero filesSingle).Decorations
      ((sampleEnv reZero filesSingle).Name 0) = .ok [97] := rfl
  have h5 : ([97] : List UInt8) ≠ [] := by decide
  have h6 : reZero.Match [97] true true = 0 := rfl
  ⟨⟨h1, h2, h3, h4, h5, h6⟩,
    C10_empty_matches_fill_cap (sampleEnv reZero filesSingle) ⟨"x*", false⟩ reZero 0 [97]
      h1 h2 h3 h4 h5 h6⟩

/-- C10 (counterexample to the claim as stated): on the one-byte content `"a"`,
with a matcher whose only matches are empty and end at the cursor, `GetSnippets`
with cap 5 produces five snippets and `Search` keeps the file in the reply; and
so they do on the file of a single newline with a pattern that matches the empty
string, whose matcher reports the end of the first, empty line. -/
theorem C10_counterexample :
    ([97] : List UInt8) ≠ [] ∧
    (∀ w : List UInt8, reZero.Match w true true = 0) ∧
    GetSnippets [97] reZero 5 = some [⟨[], 1⟩, ⟨[], 1⟩, ⟨[], 1⟩, ⟨[], 1⟩, ⟨[], 1⟩] ∧
    Search (sampleEnv reZero filesSingle) ⟨some ⟨"x*", false⟩⟩ =
      ([.regexpCompile "x*", .RegexpQuery (), .PostingQuery (), .Name 0,
          .Decorations "a.go"],
        .ok ⟨[⟨"a.go", [⟨[], 1⟩, ⟨[], 1⟩, ⟨[], 1⟩, ⟨[], 1⟩, ⟨[], 1⟩]⟩]⟩) ∧
    reEveryLine.Match [10] true true = 0 ∧
    GetSnippets [10] reEveryLine 5 = some [⟨[], 1⟩, ⟨[], 1⟩, ⟨[], 1⟩, ⟨[], 1⟩, ⟨[], 1⟩] ∧
    Search (sampleEnv reEveryLine filesNewline) ⟨some ⟨"x*", false⟩⟩ =
      ([.regexpCompile "x*", .RegexpQuery (), .PostingQuery (), .Name 0,
          .Decorations "a.go"],
        .ok ⟨[⟨"a.go", [⟨[], 1⟩, ⟨[], 1⟩, ⟨[], 1⟩, ⟨[], 1⟩, ⟨[], 1⟩]⟩]⟩) := by
  have hG : GetSnippets [97] reZero 5
      = some [⟨[], 1⟩, ⟨[], 1⟩, ⟨[], 1⟩, ⟨[], 1⟩, ⟨[], 1⟩] :=
    GetSnippets_of_empty_match [97] reZero (by decide) rfl 5 (by decide)
  have hm : reEveryLine.Match [10] true true = 0 := by decide
  have hN : GetSnippets [10] reEveryLine 5
      = some [⟨[], 1⟩, ⟨[], 1⟩, ⟨[], 1⟩, ⟨[], 1⟩, ⟨[], 1⟩] :=
    GetSnippets_of_empty_match [10] reEveryLine (by decide) hm 5 (by decide)
  refine ⟨by decide, fun _ => rfl, hG, ?_, hm, hN, ?_⟩
  · have hc : Regexp.Compile (sampleEnv reZero filesSingle) ⟨"x*", false⟩
        = ([.regexpCompile "x*"], .ok reZero) := by
      simp [Regexp.Compile, sampleEnv]
    have hd : (sampleEnv reZero filesSingle).Decorations
        ((sampleEnv reZero filesSingle).Name 0) = .ok [97] := rfl
    have hids : (sampleEnv reZero filesSingle).PostingQuery
        ((sampleEnv reZero filesSingle).RegexpQuery reZero.Syntax) = [0] := rfl
    have hname : (sampleEnv reZero filesSingle).Name 0 = "a.go" := rfl
    rw [Search_of_compiled _ _ reZero (by rw [hc]), hids,
      Search_loop_cons_ok _ reZero 0 [] ⟨[]⟩ [97] _ hd hG, hc]
    simp only [Search.loop, candidateCalls, hname]
    simp [reZero, sampleEnv]
  · have hc : Regexp.Compile (sampleEnv reEveryLine filesNewline) ⟨"x*", false⟩
        = ([.regexpCompile "x*"], .ok reEveryLine) := by
      simp [Regexp.Compile, sampleEnv]
    have hd : (sampleEnv reEveryLine filesNewline).Decorations
        ((sampleEnv reEveryLine filesNewline).Name 0) = .ok [10] := rfl
    have hids : (sampleEnv reEveryLine filesNewline).PostingQuery
        ((sampleEnv reEveryLine filesNewline).RegexpQuery reEveryLine.Syntax) = [0] := rfl
    have hname : (sampleEnv reEveryLine filesNewline).Name 0 = "a.go" := rfl
    rw [Search_of_compiled _ _ reEveryLine (by rw [hc]), hids,
      Search_loop_cons_ok _ reEveryLine 0 [] ⟨[]⟩ [10] _ hd hN, hc]
    simp only [Search.loop, candidateCalls, hname]
    simp [reEveryLine, sampleEnv]

/-- C11: for the single indexed file `"a.go"` with content `"foo\nbar\nfoobar\n"`
and the pattern `"foo"`, whose matcher reports, relative to the searched window,
the offset at which its leftmost match, the first line holding `"foo"`, ends (3
on the whole content, 11 on the window that starts at offset 3, no match on the
one that starts at offset 14), `GetSnippets` with cap 5 returns exactly the two
snippets `("foo", 1)` and `("foobar", 3)`, and `Search`, for the case-sensitive
request as for the other one, returns exactly one `Match` for `"a.go"` holding
them. -/
theorem C11_end_to_end_example :
    (reFooLine false).Match fooFile true true = 3 ∧
    (reFooLine false).Match (fooFile.drop 3) true true = 11 ∧
    (reFooLine false).Match (fooFile.drop 14) true true = -1 ∧
    MatchInWindow (reFooLine false) fooFile ∧
    GetSnippets fooFile (reFooLine false) 5 = some [⟨fooBytes, 1⟩, ⟨foobarBytes, 3⟩] ∧
    Search fooEnv ⟨some ⟨"foo", true⟩⟩ =
      ([.regexpCompile "(?i)foo", .RegexpQuery (), .PostingQuery (), .Name 0,
          .Decorations "a.go"],
        .ok ⟨[⟨"a.go", [⟨fooBytes, 1⟩, ⟨foobarBytes, 3⟩]⟩]⟩) ∧
    Search fooEnv ⟨some ⟨"foo", false⟩⟩ =
      ([.regexpCompile "foo", .RegexpQuery (), .PostingQuery (), .Name 0,
          .Decorations "a.go"],
        .ok ⟨[⟨"a.go", [⟨fooBytes, 1⟩, ⟨foobarBytes, 3⟩]⟩]⟩) :=
  ⟨by decide, by decide, by decide, reFooLine_inWindow false fooFile,
    GetSnippets_fooFile_line false,
    Search_fooEnv true _ (by simp) (GetSnippets_fooFile_line true),
    Search_fooEnv false _ (by simp) (GetSnippets_fooFile_line false)⟩

/-- C12 (as the code behaves): for every content and every matcher whose reported
offset is negative or lies within the searched window, each snippet is the text
`content[lineStart:matchEnd]`, where `matchEnd` is the reported match end, at
most the length of the content: it holds no newline, and it begins at the search
cursor (offset 0 for the first snippet, the end of the previous snippet for a
later one) or just after a newline byte. -/
theorem C12_snippet_content {Syn : Type} (data : List UInt8) (re : CompiledRegexp Syn)
    (n : Int) (hre : MatchInRange re data) :
    ∃ tr, GetSnippets.trace data re n = some tr ∧
      GetSnippets data re n = some (tr.map Iter.snip) ∧
      (∀ it ∈ tr.head?, it.chunkStart = 0) ∧
      List.Chain' (fun a b : Iter => b.chunkStart = a.lineEnd) tr ∧
      ∀ it ∈ tr,
        it.mIdx = re.Match (data.drop it.chunkStart.toNat) true true + it.chunkStart ∧
        0 ≤ it.lineStart ∧ it.lineStart ≤ it.mIdx ∧ it.mIdx ≤ (data.length : Int) ∧
        it.lineEnd = it.mIdx ∧
        it.snip.Content = (data.take it.mIdx.toNat).drop it.lineStart.toNat ∧
        it.snip.Content.count NL = 0 ∧
        (it.lineStart = it.chunkStart ∨
          (0 < it.lineStart ∧ data[(it.lineStart - 1).toNat]? = some NL)) := by
  obtain ⟨tr, htr⟩ := trace_returns_of_range data re hre n
  have hchain := (trace_spec htr).1
  obtain ⟨hhead, hch, _, _⟩ := IterChain_ranges tr 0 1 hchain
  refine ⟨tr, htr, by rw [GetSnippets_eq_trace, htr]; rfl, hhead, hch, ?_⟩
  intro it hit
  obtain ⟨cs, ln, hb⟩ := IterChain_mem_body tr 0 1 hchain it hit
  obtain ⟨hcs, h0, hm, h1, h2, h3, he, _, _, hsnip⟩ := body_cont hb
  have hnn := body_cont_no_newline hb
  have hls := body_cont_lineStart hb
  rw [hsnip, hcs]
  exact ⟨hm, by omega, h2, h3, he, rfl, hnn, hls⟩

/-- Witness of C12: the content `"a\nb"`. -/
theorem C12_snippet_content_witness :
    MatchInRange reEnd [97, 10, 98] ∧
    ∃ tr, GetSnippets.trace [97, 10, 98] reEnd 5 = some tr ∧
      GetSnippets [97, 10, 98] reEnd 5 = some (tr.map Iter.snip) ∧
      (∀ it ∈ tr.head?, it.chunkStart = 0) ∧
      List.Chain' (fun a b : Iter => b.chunkStart = a.lineEnd) tr ∧
      ∀ it ∈ tr,
        it.mIdx = reEnd.Match (([97, 10, 98] : List UInt8).drop it.chunkStart.toNat)
          true true + it.chunkStart ∧
        0 ≤ it.lineStart ∧ it.lineStart ≤ it.mIdx ∧
        it.mIdx ≤ ((([97, 10, 98] : List UInt8).length : Nat) : Int) ∧
        it.lineEnd = it.mIdx ∧
        it.snip.Content =
          (([97, 10, 98] : List UInt8).take it.mIdx.toNat).drop it.lineStart.toNat ∧
        it.snip.Content.count NL = 0 ∧
        (it.lineStart = it.chunkStart ∨
          (0 < it.lineStart ∧
            ([97, 10, 98] : List UInt8)[(it.lineStart - 1).toNat]? = some NL)) :=
  ⟨(reEnd_inWindow _).inRange,
    C12_snippet_content [97, 10, 98] reEnd 5 (reEnd_inWindow _).inRange⟩

/-- C12 (counterexample to the claim as stated): on the content `"foo\n"`, with a
pattern that matches the empty string, whose matcher reports the end of the
first line of each window, within the window, the snippets after the first are
`content[3:3]`: they begin at offset 3, which is neither 0 nor preceded by a
newline (the byte at offset 2 is `o`). -/
theorem C12_counterexample :
    MatchInRange reEveryLine fooLine ∧
    GetSnippets.trace fooLine reEveryLine 5 =
      some [⟨0, 3, 0, 3, 1, ⟨fooBytes, 1⟩⟩, ⟨3, 3, 3, 3, 1, ⟨[], 1⟩⟩,
        ⟨3, 3, 3, 3, 1, ⟨[], 1⟩⟩, ⟨3, 3, 3, 3, 1, ⟨[], 1⟩⟩, ⟨3, 3, 3, 3, 1, ⟨[], 1⟩⟩] ∧
    GetSnippets fooLine reEveryLine 5 =
      some [⟨fooBytes, 1⟩, ⟨[], 1⟩, ⟨[], 1⟩, ⟨[], 1⟩, ⟨[], 1⟩] ∧
    fooLine[2]? = some 111 ∧ (111 : UInt8) ≠ NL :=
  ⟨(reEveryLine_inWindow fooLine).inRange, trace_fooLine,
    by rw [GetSnippets_eq_trace, trace_fooLine]; rfl, by decide, by decide⟩

/-- C13 (as the code behaves): at the transport boundary a request body that
fails decoding yields the status 400 with the decoding error as text, and every
error of `Search`, those of a missing, an empty or an uncompilable pattern
included, yields the status 500 with the raw error message as text; no other
error reply is made. -/
theorem C13_status_codes {Syn Query : Type} (env : Env Syn Query)
    (body : Except String CodeSearchRequest) :
    (∀ err, body = .error err →
      RegisterHTTPHandlers.handler body (fun req => (Search env req).2)
        = .Error err StatusBadRequest) ∧
    (∀ req msg, body = .ok req → (Search env req).2 = .error msg →
      RegisterHTTPHandlers.handler body (fun req => (Search env req).2)
        = .Error msg StatusInternalServerError) ∧
    (∀ msg code,
      RegisterHTTPHandlers.handler body (fun req => (Search env req).2) = .Error msg code →
      (code = 400 ∧ body = .error msg) ∨
      (code = 500 ∧ ∃ req, body = .ok req ∧ (Search env req).2 = .error msg)) ∧
    RegisterHTTPHandlers.handler (.ok ⟨none⟩) (fun req => (Search env req).2)
      = .Error "No search regexp provided." 500 ∧
    (∀ flag, RegisterHTTPHandlers.handler (.ok ⟨some ⟨"", flag⟩⟩)
        (fun req => (Search env req).2)
      = .Error "Search regexp compilation error: Empty search regexp provided." 500) ∧
    (∀ r err, (Regexp.Compile env r).2 = .error err →
      RegisterHTTPHandlers.handler (.ok ⟨some r⟩) (fun req => (Search env req).2)
        = .Error ("Search regexp compilation error: " ++ err) 500) := by
  refine ⟨?_, ?_, ?_, ?_, ?_, ?_⟩
  · intro err h
    subst h
    rfl
  · intro req msg h hs
    subst h
    simp only [RegisterHTTPHandlers.handler, hs]
  · intro msg code h
    cases body with
    | error err =>
      simp only [RegisterHTTPHandlers.handler, Response.Error.injEq] at h
      left
      exact ⟨by rw [← h.2]; rfl, by rw [h.1]⟩
    | ok req =>
      right
      cases hs : (Search env req).2 with
      | ok reply => simp [RegisterHTTPHandlers.handler, hs] at h
      | panic => simp [RegisterHTTPHandlers.handler, hs] at h
      | error m =>
        simp only [RegisterHTTPHandlers.handler, hs, Response.Error.injEq] at h
        exact ⟨by rw [← h.2]; rfl, req, rfl, by rw [← h.1]; exact hs⟩
  · simp [RegisterHTTPHandlers.handler, Search, StatusInternalServerError]
  · intro flag
    have e : ("Search regexp compilation error: " ++ "Empty search regexp provided." : String)
        = "Search regexp compilation error: Empty search regexp provided." := by decide
    simp [RegisterHTTPHandlers.handler, Search, Regexp.Compile, StatusInternalServerError, e]
  · intro r err h
    simp only [RegisterHTTPHandlers.handler, Search_of_compile_error env r err h]
    rfl

/-- C13 (counterexample to the claim as stated): a request without a pattern, one
with an empty pattern and one with the uncompilable pattern `"("` are all
answered with the status 500, not 400. -/
theorem C13_counterexample :
    RegisterHTTPHandlers.handler (.ok ⟨none⟩)
        (fun req => (Search (sampleEnv reEnd filesSingle) req).2)
      = .Error "No search regexp provided." 500 ∧
    RegisterHTTPHandlers.handler (.ok ⟨some ⟨"", false⟩⟩)
        (fun req => (Search (sampleEnv reEnd filesSingle) req).2)
      = .Error "Search regexp compilation error: Empty search regexp provided." 500 ∧
    RegisterHTTPHandlers.handler (.ok ⟨some ⟨"(", false⟩⟩)
        (fun req => (Search (sampleEnv reEnd filesSingle) req).2)
      = .Error "Search regexp compilation error: missing closing )" 500 := by
  have e1 : ("Search regexp compilation error: " ++ "Empty search regexp provided." : String)
      = "Search regexp compilation error: Empty search regexp provided." := by decide
  have e2 : ("Search regexp compilation error: " ++ "missing closing )" : String)
      = "Search regexp compilation error: missing closing )" := by decide
  refine ⟨?_, ?_, ?_⟩
  · simp [RegisterHTTPHandlers.handler, Search, StatusInternalServerError]
  · simp [RegisterHTTPHandlers.handler, Search, Regexp.Compile, StatusInternalServerError, e1]
  · simp [RegisterHTTPHandlers.handler, Search, Regexp.Compile, sampleEnv,
      StatusInternalServerError, e2]

/-- C14: for every content and every matcher whose reported offset is negative or
lies within the searched window, `GetSnippets` returns after a single sweep: the
first window starts at offset 0, each later one exactly where the snippet before
it ended, the cursor never moves back, and the snippets are the texts
`content[lineStart:lineEnd]` of byte ranges that lie one after the other without
overlap. -/
theorem C14_single_sweep {Syn : Type} (data : List UInt8) (re : CompiledRegexp Syn)
    (n : Int) (hre : MatchInRange re data) :
    ∃ tr, GetSnippets.trace data re n = some tr ∧
      GetSnippets data re n = some (tr.map Iter.snip) ∧
      (∀ it ∈ tr.head?, it.chunkStart = 0) ∧
      List.Chain' (fun a b : Iter => b.chunkStart = a.lineEnd) tr ∧
      List.Pairwise (fun a b : Iter => a.chunkStart ≤ b.chunkStart) tr ∧
      List.Pairwise (fun a b : Iter => a.lineEnd ≤ b.lineStart) tr ∧
      ∀ it ∈ tr,
        0 ≤ it.chunkStart ∧ it.chunkStart ≤ it.lineStart ∧ it.lineStart ≤ it.lineEnd ∧
        it.lineEnd ≤ (data.length : Int) ∧
        it.snip.Content = (data.take it.lineEnd.toNat).drop it.lineStart.toNat := by
  obtain ⟨tr, htr⟩ := trace_returns_of_range data re hre n
  have hchain := (trace_spec htr).1
  obtain ⟨hhead, hch, hall, hpair⟩ := IterChain_ranges tr 0 1 hchain
  refine ⟨tr, htr, by rw [GetSnippets_eq_trace, htr]; rfl, hhead, hch, ?_, ?_, ?_⟩
  · refine hpair.imp_of_mem ?_
    intro a b ha _ hab
    have := hall a ha
    omega
  · refine hpair.imp_of_mem ?_
    intro a b _ hb hab
    have := hall b hb
    omega
  · intro it hit
    obtain ⟨g1, g2, g3, g4⟩ := hall it hit
    obtain ⟨cs, ln, hb⟩ := IterChain_mem_body tr 0 1 hchain it hit
    obtain ⟨_, _, _, _, _, _, he, _, _, hsnip⟩ := body_cont hb
    rw [hsnip, he]
    exact ⟨g1, g2, by rw [← he]; exact g3, by rw [← he]; exact g4, rfl⟩

/-- Witness of C14: the content `"foo\nbar\nfoobar\n"` and the pattern `"foo"`. -/
theorem C14_single_sweep_witness :
    MatchInRange (reFooLine false) fooFile ∧
    ∃ tr, GetSnippets.trace fooFile (reFooLine false) 5 = some tr ∧
      GetSnippets fooFile (reFooLine false) 5 = some (tr.map Iter.snip) ∧
      (∀ it ∈ tr.head?, it.chunkStart = 0) ∧
      List.Chain' (fun a b : Iter => b.chunkStart = a.lineEnd) tr ∧
      List.Pairwise (fun a b : Iter => a.chunkStart ≤ b.chunkStart) tr ∧
      List.Pairwise (fun a b : Iter => a.lineEnd ≤ b.lineStart) tr ∧
      ∀ it ∈ tr,
        0 ≤ it.chunkStart ∧ it.chunkStart ≤ it.lineStart ∧ it.lineStart ≤ it.lineEnd ∧
        it.lineEnd ≤ ((fooFile.length : Nat) : Int) ∧
        it.snip.Content = (fooFile.take it.lineEnd.toNat).drop it.lineStart.toNat :=
  ⟨(reFooLine_inWindow false fooFile).inRange,
    C14_single_sweep fooFile (reFooLine false) 5 (reFooLine_inWindow false fooFile).inRange⟩

/-- C15: for every byte sequence `b`, `countNL(b)` is the number of newline bytes
of `b` (the function is total: its loop ends because every turn shortens `b`);
`countNL` of a concatenation is the sum of the `countNL` of its parts; and a
completed iteration of `GetSnippets` advances `lineNo` by
`countNL(content[chunkStart:lineStart])`. -/
theorem C15_countNL_counts_newlines {Syn : Type} :
    (∀ b : List UInt8, countNL b = (b.count NL : Int)) ∧
    (∀ a b : List UInt8, countNL (a ++ b) = countNL a + countNL b) ∧
    (∀ (data : List UInt8) (re : CompiledRegexp Syn) (chunkStart lineNo : Int) (it : Iter),
      GetSnippets.body data re chunkStart lineNo = .cont it →
      it.lineNo = lineNo +
        countNL ((data.take it.lineStart.toNat).drop chunkStart.toNat)) := by
  refine ⟨countNL_eq_count, ?_, ?_⟩
  · intro a b
    rw [countNL_eq_count, countNL_eq_count, countNL_eq_count, List.count_append]
    push_cast
    rfl
  · intro data re cs ln it hb
    obtain ⟨_, _, _, _, _, _, _, _, hno, _⟩ := body_cont hb
    rw [countNL_eq_count]
    exact hno

/-- C16 (as the code behaves): `GetSnippets` is total, for every content, cap and
matcher, also one that leaves the cursor where it is: the body of its loop is
entered at most `max(n, 0) + 1` times, and gets past the test of the cap, calling
the matcher, at most `max(n, 0)` times, once for every snippet returned and at
most once more. -/
theorem C16_loop_bound {Syn : Type} (data : List UInt8) (re : CompiledRegexp Syn)
    (n : Int) :
    (GetSnippets.steps data re n).1 ≤ (max n 0).toNat + 1 ∧
    (GetSnippets.steps data re n).2 ≤ (max n 0).toNat ∧
    (∀ s, GetSnippets data re n = some s →
      s.length ≤ (GetSnippets.steps data re n).2 ∧
      (GetSnippets.steps data re n).2 ≤ s.length + 1) ∧
    (GetSnippets data re n = none ∨ ∃ s, GetSnippets data re n = some s) := by
  have h := stepsLoop_le data re n [] 0 1
  simp only [List.length_nil, Nat.cast_zero, sub_zero] at h
  have e : (max n 0).toNat = n.toNat := by omega
  refine ⟨by rw [e]; exact h.1, by rw [e]; exact h.2, ?_, ?_⟩
  · intro s hs
    have := stepsLoop_vs_loop data re n [] 0 1 s hs
    simp only [List.length_nil, Nat.zero_add] at this
    exact this
  · cases hs : GetSnippets data re n with
    | none => left; rfl
    | some s => right; exact ⟨s, rfl⟩

/-- C16 (counterexample to the claim as stated): on the content `"a"` the loop
body is entered once for the cap 0 (it runs the test of the cap and breaks) and
twice for the cap 1 with a matcher that leaves the cursor where it is: once more
than `max(n, 0)`; and twice as well for the cap 1 on the file of a single newline
with a pattern that matches the empty string. -/
theorem C16_counterexample :
    GetSnippets.steps [97] reEnd 0 = (1, 0) ∧
    GetSnippets [97] reEnd 0 = some [] ∧
    GetSnippets.steps [97] reZero 1 = (2, 1) ∧
    GetSnippets [97] reZero 1 = some [⟨[], 1⟩] ∧
    GetSnippets.steps [10] reEveryLine 1 = (2, 1) ∧
    GetSnippets [10] reEveryLine 1 = some [⟨[], 1⟩] := by
  have hb : GetSnippets.body [97] reZero 0 1 = .cont ⟨0, 0, 0, 0, 1, ⟨[], 1⟩⟩ :=
    body_of_empty_match [97] reZero (by decide) rfl
  have hm : reEveryLine.Match [10] true true = 0 := by decide
  have hbN : GetSnippets.body [10] reEveryLine 0 1 = .cont ⟨0, 0, 0, 0, 1, ⟨[], 1⟩⟩ :=
    body_of_empty_match [10] reEveryLine (by decide) hm
  refine ⟨?_, ?_, ?_, ?_, ?_, ?_⟩
  · rw [GetSnippets.steps, GetSnippets.stepsLoop]
    simp
  · rw [GetSnippets, GetSnippets.loop]
    simp
  · rw [GetSnippets.steps, GetSnippets.stepsLoop, if_pos (by decide), dif_neg (by decide), hb]
    simp only
    rw [GetSnippets.stepsLoop]
    simp
  · exact GetSnippets_of_empty_match [97] reZero (by decide) rfl 1 (by decide)
  · rw [GetSnippets.steps, GetSnippets.stepsLoop, if_pos (by decide), dif_neg (by decide), hbN]
    simp only
    rw [GetSnippets.stepsLoop]
    simp
  · exact GetSnippets_of_empty_match [10] reEveryLine (by decide) hm 1 (by decide)

/-- C17: when the matcher, on every window, returns a negative number or an
offset `r` with `0 ≤ r ≤ len(window)`, no run of the loop body of `GetSnippets`
ends in an out-of-range slice expression, `GetSnippets` returns, and at every
iteration `0 ≤ chunkStart ≤ lineStart ≤ lineEnd = matchEnd ≤ len(content)`: the
four slice expressions are in range and the clamp of `lineEnd` does not fire. -/
theorem C17_slices_in_range {Syn : Type} (data : List UInt8) (re : CompiledRegexp Syn)
    (n : Int) (hre : MatchInRange re data) :
    (∀ chunkStart lineNo : Int, 0 ≤ chunkStart → chunkStart < (data.length : Int) →
      GetSnippets.body data re chunkStart lineNo ≠ .oob) ∧
    ∃ tr, GetSnippets.trace data re n = some tr ∧
      GetSnippets data re n = some (tr.map Iter.snip) ∧
      ∀ it ∈ tr,
        0 ≤ it.chunkStart ∧ it.chunkStart ≤ it.lineStart ∧ it.lineStart ≤ it.lineEnd ∧
        it.lineEnd = it.mIdx ∧ it.mIdx ≤ (data.length : Int) ∧
        ¬ it.mIdx > (data.length : Int) ∧
        (slice data it.chunkStart (data.length : Int)).isSome ∧
        (slice data it.chunkStart it.mIdx).isSome ∧
        (slice data it.chunkStart it.lineStart).isSome ∧
        (slice data it.lineStart it.lineEnd).isSome := by
  refine ⟨fun cs ln h0 h1 => body_ne_oob_of_range hre ln h0 h1, ?_⟩
  obtain ⟨tr, htr⟩ := trace_returns_of_range data re hre n
  have hchain := (trace_spec htr).1
  refine ⟨tr, htr, by rw [GetSnippets_eq_trace, htr]; rfl, ?_⟩
  intro it hit
  obtain ⟨cs, ln, hb⟩ := IterChain_mem_body tr 0 1 hchain it hit
  obtain ⟨hcs, h0, _, h1, h2, h3, he, _, _, _⟩ := body_cont hb
  subst hcs
  refine ⟨h0, h1, by omega, he, h3, by omega, ?_, ?_, ?_, ?_⟩
  · rw [slice_of_le h0 (by omega) (le_refl _)]; rfl
  · rw [slice_of_le h0 (by omega) h3]; rfl
  · rw [slice_of_le h0 h1 (by omega)]; rfl
  · rw [slice_of_le (by omega) (by omega) (by omega)]; rfl

/-- Witness of C17: the content `"foo\nbar\nfoobar\n"` and the pattern `"foo"`. -/
theorem C17_slices_in_range_witness :
    MatchInRange (reFooLine false) fooFile ∧
    ((∀ chunkStart lineNo : Int, 0 ≤ chunkStart →
        chunkStart < ((fooFile.length : Nat) : Int) →
      GetSnippets.body fooFile (reFooLine false) chunkStart lineNo ≠ .oob) ∧
    ∃ tr, GetSnippets.trace fooFile (reFooLine false) 5 = some tr ∧
      GetSnippets fooFile (reFooLine false) 5 = some (tr.map Iter.snip) ∧
      ∀ it ∈ tr,
        0 ≤ it.chunkStart ∧ it.chunkStart ≤ it.lineStart ∧ it.lineStart ≤ it.lineEnd ∧
        it.lineEnd = it.mIdx ∧ it.mIdx ≤ ((fooFile.length : Nat) : Int) ∧
        ¬ it.mIdx > ((fooFile.length : Nat) : Int) ∧
        (slice fooFile it.chunkStart ((fooFile.length : Nat) : Int)).isSome ∧
        (slice fooFile it.chunkStart it.mIdx).isSome ∧
        (slice fooFile it.chunkStart it.lineStart).isSome ∧
        (slice fooFile it.lineStart it.lineEnd).isSome) :=
  ⟨(reFooLine_inWindow false fooFile).inRange,
    C17_slices_in_range fooFile (reFooLine false) 5 (reFooLine_inWindow false fooFile).inRange⟩

/-- C18: for every content, matcher and cap, no snippet that `GetSnippets` returns
holds a newline byte; and `GetSnippets` returns when the matcher reports a
negative number or an offset within the window. -/
theorem C18_no_newline_in_snippet {Syn : Type} (data : List UInt8)
    (re : CompiledRegexp Syn) (n : Int) :
    (∀ s, GetSnippets data re n = some s → ∀ x ∈ s, NL ∉ x.Content) ∧
    (MatchInRange re data → ∃ s, GetSnippets data re n = some s) := by
  constructor
  · intro s hs x hx
    obtain ⟨tr, htr, rfl⟩ := GetSnippets_some_iff_trace hs
    obtain ⟨it, hit, rfl⟩ := List.mem_map.1 hx
    obtain ⟨cs, ln, hb⟩ := IterChain_mem_body tr 0 1 (trace_spec htr).1 it hit
    have hnn := body_cont_no_newline hb
    obtain ⟨_, _, _, _, _, _, _, _, _, hsnip⟩ := body_cont hb
    rw [hsnip]
    exact List.count_eq_zero.1 hnn
  · intro hre
    obtain ⟨tr, htr⟩ := trace_returns_of_range data re hre n
    exact ⟨tr.map Iter.snip, by rw [GetSnippets_eq_trace, htr]; rfl⟩

end codesearch
